import Mathlib

/-!
# tinyNN: a shallow embedding of the model loader and the forward pass

The C sources embedded here are `src/utils.c` (activation kernels), `src/model.c`
(model loading and the forward pass), `src/main.c` (`load_input_from_file`) and
`src/generate_model.c` (preset table and model generation).

Conventions of the embedding:

* `float` is an arbitrary linearly ordered field `α` with exact arithmetic, and `expf` is a
  parameter; infinities and NaN are outside the embedding. Where the rounding of a `float`
  matters it is explicit: `round_to_float` is the rounding to single precision, and
  `scan_f_float` is the conversion `"%f"` followed by the rounding of the value stored.
* `int` is `Int`; a loop `for (i = lo; i < hi; i++)` runs `(hi - lo).toNat` times. In the
  loader, what is stored in an `int` or computed in `int` arithmetic is reduced to 32 bits by
  `to_int`. In `forward_pass` an index is below `2^31` whenever the access is inside an
  array the program can hold, and its arithmetic is not reduced.
* A C array is a `List`; a read outside the array makes the enclosing function return `none`.
  `malloc` is taken to succeed, and the memory it returns holds what `Uninit` says.
* A stream is the list of characters that remain to be read.
-/

set_option autoImplicit false
set_option linter.unusedSectionVars false

namespace TinyNN

variable {α : Type} [LinearOrderedField α]

/-! ## Control flow -/

/-- The loop `for (c iterations, starting at index i) s = body i s`; a failing body
(an out-of-bounds access) aborts the loop. -/
def for_loop {σ : Type} (body : Nat → σ → Option σ) : Nat → Nat → σ → Option σ
  | 0, _, s => some s
  | c + 1, i, s => (body i s).bind (for_loop body c (i + 1))

/-! ## `src/utils.c` -/

/-- `float relu(float x) { return x > 0 ? x : 0; }` -/
def relu (x : α) : α := if x > 0 then x else 0

/-- `float sigmoid(float x) { return 1.0f / (1.0f + expf(-x)); }` -/
def sigmoid (expf : α → α) (x : α) : α := 1 / (1 + expf (-x))

/-- First loop of `softmax`: `if (input[i] > max) max = input[i];`. -/
def softmax_max_body (input : List α) (i : Nat) (max : α) : Option α :=
  input[i]?.map fun x => if x > max then x else max

/-- Second loop of `softmax`: `input[i] = expf(input[i] - max); sum += input[i];`.
The state is the array and `sum`. -/
def softmax_exp_body (expf : α → α) (max : α) (i : Nat) (st : List α × α) : Option (List α × α) :=
  st.1[i]?.map fun x => (st.1.set i (expf (x - max)), st.2 + expf (x - max))

/-- Third loop of `softmax`: `input[i] /= sum;`. -/
def softmax_div_body (sum : α) (i : Nat) (input : List α) : Option (List α) :=
  input[i]?.map fun x => input.set i (x / sum)

/-- `void softmax(float* input, int length)`: the array after the call, or `none` when an
index is outside the array. -/
def softmax (expf : α → α) (input : List α) (length : Int) : Option (List α) :=
  input[0]?.bind fun max0 =>
  (for_loop (softmax_max_body input) (length - 1).toNat 1 max0).bind fun max =>
  (for_loop (softmax_exp_body expf max) length.toNat 0 (input, 0)).bind fun st =>
  for_loop (softmax_div_body st.2) length.toNat 0 st.1

/-! ## `src/model.h` and `forward_pass` of `src/model.c` -/

/-- `TinyNN_Model` of `src/model.h`; the three pointers are the arrays they point to. -/
structure TinyNN_Model (α : Type) where
  input_size : Int
  output_size : Int
  hidden_layers : Int
  layer_sizes : List Int
  weights : List (List α)
  biases : List (List α)

/-- The read `a[i]` for an `int` index `i`. -/
def read_at {β : Type} (a : List β) (i : Int) : Option β :=
  if i < 0 then none else a[i.toNat]?

/-- The write `a[i] = v` for an index `i`. -/
def write_at {β : Type} (a : List β) (i : Nat) (v : β) : Option (List β) :=
  if i < a.length then some (a.set i v) else none

/-- Body of the dot-product loop of `forward_pass`:
`sum += model->weights[i][j * current_input_size + k] * current_input[k];`. -/
def dot_body (model : TinyNN_Model α) (i : Nat) (current_input : List α)
    (current_input_size : Int) (j k : Nat) (sum : α) : Option α :=
  model.weights[i]?.bind fun w =>
  (read_at w ((j : Int) * current_input_size + (k : Int))).bind fun wjk =>
  current_input[k]?.map fun xk => sum + wjk * xk

/-- Body of the loop over the output neurons `j` of one layer: the dot product from
`sum = 0.0f`, then `sum += model->biases[i][j]; layer_output[j] = sum;`. -/
def neuron_body (model : TinyNN_Model α) (i : Nat) (current_input : List α)
    (current_input_size : Int) (j : Nat) (layer_output : List α) : Option (List α) :=
  (for_loop (dot_body model i current_input current_input_size j)
      current_input_size.toNat 0 0).bind fun sum =>
  model.biases[i]?.bind fun b =>
  b[j]?.bind fun bj =>
  write_at layer_output j (sum + bj)

/-- Body of the ReLU loop: `layer_output[j] = relu(layer_output[j]);`. -/
def relu_body (j : Nat) (layer_output : List α) : Option (List α) :=
  layer_output[j]?.map fun x => layer_output.set j (relu x)

/-- Body of the loop over the layers `i` of `forward_pass`. The state is `current_input` and
`current_input_size`; the fresh `layer_output` buffer of `layer_output_size` floats is taken
zero-filled (every element is written before it is read). -/
def layer_body (expf : α → α) (model : TinyNN_Model α) (i : Nat) (st : List α × Int) :
    Option (List α × Int) :=
  model.layer_sizes[i]?.bind fun layer_output_size =>
  (for_loop (neuron_body model i st.1 st.2) layer_output_size.toNat 0
      (List.replicate layer_output_size.toNat 0)).bind fun layer_output =>
  (if (i : Int) < model.hidden_layers then
      for_loop relu_body layer_output_size.toNat 0 layer_output
    else
      softmax expf layer_output layer_output_size).map fun out =>
  (out, layer_output_size)

/-- `float* forward_pass(TinyNN_Model* model, float* input)`: the returned vector, or `none`
when some index is outside its array. -/
def forward_pass (expf : α → α) (model : TinyNN_Model α) (input : List α) : Option (List α) :=
  (for_loop (layer_body expf model) (model.hidden_layers + 1).toNat 0
      (input, model.input_size)).map Prod.fst

/-! ## Streams: `fscanf` conversions on the characters that remain to be read

`fscanf` belongs to the C library, so the loaders below take the two conversions they use as
parameters: `"%d"` as a function `List Char → Option Int × List Char` (the value converted, if
any, and the stream left behind) and `"%f"` as a function `List Char → Option (α × List Char)`
(the value and the stream left when the conversion succeeds). `scan_d` and `scan_f` are the
instances for decimal text, after the C standard's description of `fscanf`. -/

/-- `isspace` in the "C" locale. -/
def isspace (c : Char) : Bool :=
  c == ' ' || c == '\t' || c == '\n' || c == Char.ofNat 11 || c == Char.ofNat 12 || c == '\r'

/-- `isdigit`. -/
def isdigit (c : Char) : Bool := decide ('0' ≤ c) && decide (c ≤ '9')

/-- The value of a run of decimal digits. -/
def digits_val (ds : List Char) : Nat :=
  ds.foldl (fun n c => 10 * n + (c.toNat - 48)) 0

/-- An optional sign at the head of the stream: whether it is `-`, and the stream after it. -/
def scan_sign : List Char → Bool × List Char
  | '-' :: t => (true, t)
  | '+' :: t => (false, t)
  | s => (false, s)

/-- The conversion `"%d"` on decimal text: white space is skipped, then an optional sign and
the longest run of digits are consumed; without a digit nothing is converted. -/
def scan_d (fp : List Char) : Option Int × List Char :=
  let s := scan_sign (fp.dropWhile isspace)
  let ds := s.2.takeWhile isdigit
  if ds.isEmpty then (none, s.2)
  else (some (if s.1 then -(digits_val ds : Int) else (digits_val ds : Int)),
        s.2.dropWhile isdigit)

/-- The optional fraction `.ddd` of a decimal number: its digits and the stream after it. -/
def scan_fraction : List Char → List Char × List Char
  | '.' :: t => (t.takeWhile isdigit, t.dropWhile isdigit)
  | s => ([], s)

/-- The optional exponent `e±ddd` of a decimal number: `some (exponent, stream after it)`, or
`none` when an `e` is not followed by a digit sequence (a matching failure). -/
def scan_exponent : List Char → Option (Int × List Char)
  | c :: t =>
    if c == 'e' || c == 'E' then
      let s := scan_sign t
      let ds := s.2.takeWhile isdigit
      if ds.isEmpty then none
      else some (if s.1 then -(digits_val ds : Int) else (digits_val ds : Int),
                 s.2.dropWhile isdigit)
    else some (0, c :: t)
  | [] => some (0, [])

/-- The conversion `"%f"` on decimal text (`[sign] digits [. digits] [e [sign] digits]`, with
a digit before or after the point): the value and the stream left, or `none` when no number
starts the stream after its white space. -/
def scan_f (fp : List Char) : Option (α × List Char) :=
  let s := scan_sign (fp.dropWhile isspace)
  let ip := s.2.takeWhile isdigit
  let fr := scan_fraction (s.2.dropWhile isdigit)
  if ip.isEmpty && fr.1.isEmpty then none
  else
    (scan_exponent fr.2).map fun e =>
      ((if s.1 then -1 else 1) * (digits_val (ip ++ fr.1) : α)
          * (10 : α) ^ (e.1 - (fr.1.length : Int)), e.2)

/-- One call `fscanf(fp, "%f,", &x)` that returns 1: the value stored in `x` and the stream
left, a comma right after the number being consumed by the `,` of the format. -/
def fscanf_f_comma (scanf_f : List Char → Option (α × List Char)) (fp : List Char) :
    Option (α × List Char) :=
  (scanf_f fp).map fun r =>
    (r.1, match r.2 with
          | ',' :: t => t
          | rest => rest)

/-! ## Loading: `src/model.c` and `load_input_from_file` of `src/main.c` -/

/-- The loop of `load_float_array_from_csv` from index `i` with `c` elements to go: the array
when every `fscanf` returned 1, `none` when one did not (`return 0`). -/
def load_float_array_loop (scanf_f : List Char → Option (α × List Char)) :
    Nat → Nat → List Char → List α → Option (List α)
  | 0, _, _, array => some array
  | c + 1, i, fp, array =>
    match fscanf_f_comma scanf_f fp with
    | none => none
    | some r => load_float_array_loop scanf_f c (i + 1) r.2 (array.set i r.1)

/-- `static int load_float_array_from_csv(const char* filepath, float* array, int num_elements)`
on the contents of the file (`none`: `fopen` fails): `some` of the array filled when the call
returns 1, `none` when it returns 0. The caller passes an array of `num_elements` floats. -/
def load_float_array_from_csv (scanf_f : List Char → Option (α × List Char))
    (file : Option (List Char)) (array : List α) (num_elements : Int) : Option (List α) :=
  match file with
  | none => none
  | some fp => load_float_array_loop scanf_f num_elements.toNat 0 fp array

/-- The value of an `int` whose mathematical value is `x`: `x` reduced modulo `2^32` to the
range from `-2^31` to `2^31 - 1` (two's complement). This is what a product of two `int`s or
the store of a wider integer into an `int` gives on the targets of the program, where `int`
has 32 bits; the C standard leaves the overflow of a signed product undefined. -/
def to_int (x : Int) : Int := (x + 2147483648) % 4294967296 - 2147483648

/-- What the freshly allocated model holds before anything is stored in it: the three `int`
fields of the `malloc`ed struct, the elements of the `malloc`ed `layer_sizes` buffer, and for
each element of the `malloc`ed pointer arrays `weights` and `biases` whether it is something
other than a null pointer. -/
structure Uninit where
  input_size : Int
  output_size : Int
  hidden_layers : Int
  layer_sizes : Nat → Int
  weights : Nat → Bool
  biases : Nat → Bool

/-- `fscanf(fp, "%d", &x)` with the return value ignored: the `int` `x` afterwards (unchanged
when nothing was converted) and the stream left. -/
def fscanf_d_into (scanf_d : List Char → Option Int × List Char) (fp : List Char) (x : Int) :
    Int × List Char :=
  (((scanf_d fp).1.map to_int).getD x, (scanf_d fp).2)

/-- The loop `for (i...) fscanf(fp, "%d", &model->layer_sizes[i]);` from index `i` with `c`
elements to go: the `layer_sizes` buffer afterwards. -/
def read_layer_sizes (scanf_d : List Char → Option Int × List Char) :
    Nat → Nat → List Char → List Int → List Int
  | 0, _, _, sizes => sizes
  | c + 1, i, fp, sizes =>
    read_layer_sizes scanf_d c (i + 1) (scanf_d fp).2
      (sizes.set i (((scanf_d fp).1.map to_int).getD (sizes.getD i 0)))

/-- The name `layer_<i>_weights.csv`. -/
def weights_file (i : Nat) : String := "layer_" ++ toString i ++ "_weights.csv"

/-- The name `layer_<i>_biases.csv`. -/
def biases_file (i : Nat) : String := "layer_" ++ toString i ++ "_biases.csv"

/-- How a call of the loader ends: it returns a pointer to what it built, it returns `NULL`,
or it frees a pointer that was never assigned and is not null, after which the behaviour of
the program is undefined. -/
inductive LoadResult (β : Type) where
  | loaded (v : β)
  | null
  | undefined

/-- What a call returned, when it returned something other than `NULL`. -/
def loaded_model {β : Type} : LoadResult β → Option β
  | .loaded v => some v
  | _ => none

/-- Whether a call ended by returning `NULL`. -/
def returned_null {β : Type} : LoadResult β → Bool
  | .null => true
  | _ => false

/-- Whether a call ended in undefined behaviour. -/
def is_undefined {β : Type} : LoadResult β → Bool
  | .undefined => true
  | _ => false

/-- `void free_model(TinyNN_Model* model)` on a model under construction whose pointer arrays
`weights` and `biases` were assigned at the indices below `assigned` only: whether the call is
defined. The loops `for (i = 0; i <= model->hidden_layers; i++)` free every element that is
not null; an element that was assigned is the result of a `malloc`, and an element that was
not is what `u` says the allocated memory held. -/
def free_model (u : Uninit) (assigned : Nat) (hidden_layers : Int) : Bool :=
  ((List.range (hidden_layers + 1).toNat).all fun i => decide (i < assigned) || !(u.weights i))
    && ((List.range (hidden_layers + 1).toNat).all fun i => decide (i < assigned) || !(u.biases i))

/-- The exit `free_model(model); return NULL;` of `create_model_from_path`. -/
def free_model_return_null {β : Type} (u : Uninit) (assigned : Nat) (hidden_layers : Int) :
    LoadResult β :=
  if free_model u assigned hidden_layers then .null else .undefined

/-- The loop over the layers of `create_model_from_path` from layer `i` with `c` layers to go;
the state is `prev_layer_size` and the weight and bias arrays loaded so far. Both pointers of
layer `i` are assigned before its files are loaded, so at a failure in layer `i` the elements
from `i + 1` on are the ones never assigned. -/
def load_layers (scanf_f : List Char → Option (α × List Char))
    (dir : String → Option (List Char)) (u : Uninit) (hidden_layers : Int)
    (layer_sizes : List Int) :
    Nat → Nat → Int → List (List α) → List (List α) →
      LoadResult (List (List α) × List (List α))
  | 0, _, _, weights, biases => .loaded (weights, biases)
  | c + 1, i, prev_layer_size, weights, biases =>
    let current_layer_size := layer_sizes.getD i 0
    let weight_count := to_int (prev_layer_size * current_layer_size)
    let bias_count := current_layer_size
    match load_float_array_from_csv scanf_f (dir (weights_file i))
        (List.replicate weight_count.toNat 0) weight_count with
    | none => free_model_return_null u (i + 1) hidden_layers
    | some w =>
      match load_float_array_from_csv scanf_f (dir (biases_file i))
          (List.replicate bias_count.toNat 0) bias_count with
      | none => free_model_return_null u (i + 1) hidden_layers
      | some b =>
        load_layers scanf_f dir u hidden_layers layer_sizes c (i + 1) current_layer_size
          (weights ++ [w]) (biases ++ [b])

/-- Step 1 of `create_model_from_path`, on the contents `fp` of `architecture.txt`: the model
once `input_size`, `output_size`, `hidden_layers` and the `layer_sizes` buffer have been read
(no weights or biases yet). The results of the `fscanf` calls are ignored, so what is not
converted keeps the value `u` gives it. -/
def read_architecture (scanf_d : List Char → Option Int × List Char) (fp : List Char)
    (u : Uninit) : TinyNN_Model α :=
  let r1 := fscanf_d_into scanf_d fp u.input_size
  let r2 := fscanf_d_into scanf_d r1.2 u.output_size
  let r3 := fscanf_d_into scanf_d r2.2 u.hidden_layers
  let total_layers := to_int (r3.1 + 1)
  { input_size := r1.1, output_size := r2.1, hidden_layers := r3.1,
    layer_sizes := read_layer_sizes scanf_d total_layers.toNat 0 r3.2
      ((List.range total_layers.toNat).map u.layer_sizes),
    weights := [], biases := [] }

/-- `TinyNN_Model* create_model_from_path(const char* model_path)` on the files of the
directory `model_path` (`dir name` is the contents of the file `name`, `none` when it cannot
be opened); `u` is what the allocated memory held. -/
def create_model_from_path (scanf_d : List Char → Option Int × List Char)
    (scanf_f : List Char → Option (α × List Char)) (dir : String → Option (List Char))
    (u : Uninit) : LoadResult (TinyNN_Model α) :=
  match dir "architecture.txt" with
  | none => .null
  | some fp =>
    let model : TinyNN_Model α := read_architecture scanf_d fp u
    let total_layers := to_int (model.hidden_layers + 1)
    match load_layers scanf_f dir u model.hidden_layers model.layer_sizes total_layers.toNat 0
        model.input_size [] [] with
    | .loaded wb => .loaded { model with weights := wb.1, biases := wb.2 }
    | .null => .null
    | .undefined => .undefined

/-- A loop `for (c iterations, starting at index i) s = body i s` whose body cannot fail. -/
def loop {σ : Type} (body : Nat → σ → σ) : Nat → Nat → σ → σ
  | 0, _, s => s
  | c + 1, i, s => loop body c (i + 1) (body i s)

/-- `ModelPreset`; `layer_sizes` is the static array the pointer refers to. -/
structure ModelPreset where
  name : String
  input_size : Int
  output_size : Int
  num_layers : Int
  layer_sizes : List Int

/-- `static const int micro_layers[] = {8, 4};` -/
def micro_layers : List Int := [8, 4]

/-- `static const int small_layers[] = {32, 16, 8};` -/
def small_layers : List Int := [32, 16, 8]

/-- `static const int medium_layers[] = {64, 32, 32, 16};` -/
def medium_layers : List Int := [64, 32, 32, 16]

/-- `static const int large_layers[] = {128, 64, 64, 32, 16};` -/
def large_layers : List Int := [128, 64, 64, 32, 16]

/-- `static const int huge_layers[] = {512, 256, 128, 64, 32};` -/
def huge_layers : List Int := [512, 256, 128, 64, 32]

/-- `static ModelPreset presets[]`. -/
def presets : List ModelPreset :=
  [ { name := "Micro", input_size := 16, output_size := 4, num_layers := 2,
      layer_sizes := micro_layers },
    { name := "Small", input_size := 64, output_size := 8, num_layers := 3,
      layer_sizes := small_layers },
    { name := "Medium", input_size := 128, output_size := 16, num_layers := 4,
      layer_sizes := medium_layers },
    { name := "Large", input_size := 256, output_size := 16, num_layers := 5,
      layer_sizes := large_layers },
    { name := "Huge", input_size := 1024, output_size := 32, num_layers := 5,
      layer_sizes := huge_layers } ]

/-- `static const int num_presets = sizeof(presets) / sizeof(presets[0]);` -/
def num_presets : Nat := presets.length

/-- `random_float`: `((float)rand() / (float)RAND_MAX) * 2.0f - 1.0f`, for the value `r` of
`(float)rand()`. -/
def random_float (RAND_MAX r : α) : α := (r / RAND_MAX) * 2 - 1

/-- The conversion `"%d"` of `fprintf`. -/
def fmt_d (n : Int) : List Char := (toString n).toList

/-- One call `fprintf(fp, "%f%c", random_float(), (c == n - 1) ? '\0' : ',')`. The state is
the number of calls of `rand` so far and the file written so far; `fmt_f` is the conversion
`"%f"` and `rand k` the value of the `k`-th `(float)rand()`. -/
def value_body (fmt_f : α → List Char) (rand : Nat → α) (RAND_MAX : α) (n : Int) (c : Nat)
    (st : Nat × List Char) : Nat × List Char :=
  (st.1 + 1, st.2 ++ fmt_f (random_float RAND_MAX (rand st.1))
    ++ [if (c : Int) = n - 1 then Char.ofNat 0 else ','])

/-- One row of a weights file: the loop over `c`, then `fprintf(fp, "\n")`. -/
def row_body (fmt_f : α → List Char) (rand : Nat → α) (RAND_MAX : α) (prev_layer_size : Int)
    (_r : Nat) (st : Nat × List Char) : Nat × List Char :=
  let st1 := loop (value_body fmt_f rand RAND_MAX prev_layer_size) prev_layer_size.toNat 0 st
  (st1.1, st1.2 ++ ['\n'])

/-- The text `architecture.txt` receives. The reads `preset->layer_sizes[i]` are inside the
array for every entry of the table. -/
def architecture_text (preset : ModelPreset) : List Char :=
  loop (fun i fp => fp ++ fmt_d (preset.layer_sizes.getD i 0) ++ ['\n'])
    preset.num_layers.toNat 0
    (fmt_d preset.input_size ++ ['\n'] ++ fmt_d preset.output_size ++ ['\n']
      ++ fmt_d (preset.num_layers - 1) ++ ['\n'])

/-- Body of the loop over the layers of `run_model_generator`. The state is the number of
calls of `rand` so far, `prev_layer_size` and the files written so far, in order. -/
def generate_layer (fmt_f : α → List Char) (rand : Nat → α) (RAND_MAX : α)
    (preset : ModelPreset) (i : Nat) (st : Nat × Int × List (String × List Char)) :
    Nat × Int × List (String × List Char) :=
  let current_layer_size := preset.layer_sizes.getD i 0
  let w := loop (row_body fmt_f rand RAND_MAX st.2.1) current_layer_size.toNat 0 (st.1, [])
  let b := loop (value_body fmt_f rand RAND_MAX current_layer_size) current_layer_size.toNat 0
    (w.1, [])
  (b.1, current_layer_size, st.2.2 ++ [(weights_file i, w.2), (biases_file i, b.2)])

/-- The files `run_model_generator` writes for the chosen preset, in the order written; the
target directory is emptied first, so these are its whole contents. -/
def generate (fmt_f : α → List Char) (rand : Nat → α) (RAND_MAX : α) (preset : ModelPreset) :
    List (String × List Char) :=
  (loop (generate_layer fmt_f rand RAND_MAX preset) preset.num_layers.toNat 0
    (0, preset.input_size, [("architecture.txt", architecture_text preset)])).2.2

/-- `run_model_generator` once the menu has returned a `choice` in `1..num_presets`. -/
def run_model_generator (fmt_f : α → List Char) (rand : Nat → α) (RAND_MAX : α)
    (choice : Nat) : Option (List (String × List Char)) :=
  if 1 ≤ choice ∧ choice ≤ num_presets then
    presets[choice - 1]?.map (generate fmt_f rand RAND_MAX)
  else none

/-- A directory as the loader sees it: the contents of the file of a given name, the last
one written when a name was written twice. -/
def dir_of (files : List (String × List Char)) (name : String) : Option (List Char) :=
  files.reverse.lookup name

/-- A rational rounded to the nearest natural number, ties to even. -/
def round_half_even (y : ℚ) : Nat :=
  let q := y.floor.toNat
  if y - y.floor > 1 / 2 ∨ (y - y.floor = 1 / 2 ∧ q % 2 = 1) then q + 1 else q

/-- The conversion `"%f"` of `fprintf` on a rational: sign, integer part, point and six
fractional digits. -/
def fmt_f (x : ℚ) : List Char :=
  let n := round_half_even (|x| * 1000000)
  let fr := (toString (n % 1000000)).toList
  (if x < 0 then ['-'] else []) ++ (toString (n / 1000000)).toList ++ ['.']
    ++ List.replicate (6 - fr.length) '0' ++ fr

/-! ## Single precision

The rounding of a real number to the nearest `float` (IEEE 754 binary32, ties to even), on
the rationals and in the range of the normal numbers: a `float` has 24 significant bits, so
the floats of the binade `2^e ≤ |x| < 2^(e+1)` are the multiples of `2^(e-23)`. -/

/-- The position of the leading bit of `n ≥ 1`: the `k` with `2^k ≤ n < 2^(k+1)`, found by
at most `fuel` halvings. -/
def leading_bit : Nat → Nat → Nat
  | 0, _ => 0
  | fuel + 1, n => if n < 2 then 0 else leading_bit fuel (n / 2) + 1

/-- The binade of a rational `x ≠ 0`: the integer `e` with `2^e ≤ |x| < 2^(e+1)`. It is the
difference of the leading bits of numerator and denominator, or one less. -/
def binade (x : ℚ) : Int :=
  let e : Int := (leading_bit x.num.natAbs x.num.natAbs : Int) - (leading_bit x.den x.den : Int)
  if |x| < (2 : ℚ) ^ e then e - 1 else e

/-- The `float` nearest to a rational, ties to even. -/
def round_to_float (x : ℚ) : ℚ :=
  if x = 0 then 0
  else
    let ulp : ℚ := (2 : ℚ) ^ (binade x - 23)
    (if x < 0 then -1 else 1) * (round_half_even (|x| / ulp) : ℚ) * ulp

/-- The sum `a + b` of two `float`s: the exact sum, rounded. -/
def float_add (a b : ℚ) : ℚ := round_to_float (a + b)

/-- The conversion `"%f"` on decimal text followed by the store into a `float`: the value of
the text rounded by `fl` to the float stored, and the stream left. -/
def scan_f_float (fl : α → α) (fp : List Char) : Option (α × List Char) :=
  (scan_f fp).map fun r => (fl r.1, r.2)

/-! ## Reference definitions (from the specification's wording) -/

/-- The maximum element of a vector (`0` for the empty vector). -/
def vec_max : List α → α
  | [] => 0
  | x :: xs => xs.foldl max x

/-- Reference softmax: `exp(v[i] - max v) / Σ_j exp(v[j] - max v)`. -/
def softmax_ref (expf : α → α) (v : List α) : List α :=
  v.map fun x => expf (x - vec_max v) / (v.map fun y => expf (y - vec_max v)).sum

/-- The size of the vector that enters layer `i`: `input_size` for layer 0, otherwise
`layer_sizes[i-1]`. -/
def prev_layer_size (m : TinyNN_Model α) (i : Nat) : Int :=
  if i = 0 then m.input_size else m.layer_sizes.getD (i - 1) 0

/-- The Model invariant of the specification: `hidden_layer_count ≥ 0`, one layer size, one
weight array and one bias array per layer, `len(weights[i]) = layer_sizes[i] * prev_layer_size`
and `len(biases[i]) = layer_sizes[i]`. -/
def ModelInv (m : TinyNN_Model α) : Prop :=
  0 ≤ m.hidden_layers ∧
  (m.layer_sizes.length : Int) = m.hidden_layers + 1 ∧
  m.weights.length = m.layer_sizes.length ∧
  m.biases.length = m.layer_sizes.length ∧
  (∀ i, i < m.layer_sizes.length →
    ((m.weights.getD i []).length : Int) = m.layer_sizes.getD i 0 * prev_layer_size m i) ∧
  (∀ i, i < m.layer_sizes.length →
    ((m.biases.getD i []).length : Int) = m.layer_sizes.getD i 0)

/-- Reference affine transform of one layer:
`out[j] = bias[j] + Σ_k weight[j*prev_size + k] * a[k]`. -/
def affine_ref (w b : List α) (prev_size size : Nat) (a : List α) : List α :=
  (List.range size).map fun j =>
    b.getD j 0 + ((List.range prev_size).map fun k => w.getD (j * prev_size + k) 0 * a.getD k 0).sum

/-- Reference layer `i`: the affine transform, then ReLU elementwise when
`i < hidden_layer_count` and softmax over the whole vector otherwise. -/
def layer_ref (expf : α → α) (m : TinyNN_Model α) (i : Nat) (a : List α) : List α :=
  if (i : Int) < m.hidden_layers then
    (affine_ref (m.weights.getD i []) (m.biases.getD i []) (prev_layer_size m i).toNat
      (m.layer_sizes.getD i 0).toNat a).map fun x => max x 0
  else
    softmax_ref expf (affine_ref (m.weights.getD i []) (m.biases.getD i [])
      (prev_layer_size m i).toNat (m.layer_sizes.getD i 0).toNat a)

/-- Reference forward pass: the fold of `layer_ref` over the layers `0..hidden_layer_count`
in order. -/
def forward_ref (expf : α → α) (m : TinyNN_Model α) (input : List α) : List α :=
  (List.range (m.hidden_layers + 1).toNat).foldl (fun a i => layer_ref expf m i a) input

/-- The first `n` values of a stream, read by `n` successive calls `fscanf(fp, "%f,", &x)`
that all return 1, and the stream left; `none` when one of the calls fails. -/
def scan_values (scanf_f : List Char → Option (α × List Char)) :
    Nat → List Char → Option (List α × List Char)
  | 0, fp => some ([], fp)
  | n + 1, fp =>
    match fscanf_f_comma scanf_f fp with
    | none => none
    | some r => (scan_values scanf_f n r.2).map fun vr => (r.1 :: vr.1, vr.2)

/-- The stream holds exactly the values `vs`: they are read one after the other, and the
next call of `fscanf` fails. -/
def holds_values (scanf_f : List Char → Option (α × List Char)) (fp : List Char)
    (vs : List α) : Prop :=
  ∃ rest, scan_values scanf_f vs.length fp = some (vs, rest) ∧
    fscanf_f_comma scanf_f rest = none

/-- Text as the conversion `"%f"` of `fprintf` writes a finite number: an optional `-`, at
least one digit, a point and six digits. -/
def pct_f_text (t : List Char) : Prop :=
  ∃ (neg : Bool) (ip fr : List Char),
    t = (if neg then ['-'] else []) ++ ip ++ '.' :: fr ∧ ip ≠ [] ∧
    (∀ c ∈ ip, isdigit c = true) ∧ (∀ c ∈ fr, isdigit c = true) ∧ fr.length = 6

/-- The characters that `c` calls `fprintf(fp, "%f%c", random_float(), ...)` append to a
file, from the loop index `i` and the `k`-th call of `rand` on. -/
def row_chunks (fmt_f : α → List Char) (rand : Nat → α) (RAND_MAX : α) (n : Int) :
    Nat → Nat → Nat → List Char
  | 0, _, _ => []
  | c + 1, i, k =>
    fmt_f (random_float RAND_MAX (rand k))
      ++ (if (i : Int) = n - 1 then Char.ofNat 0 else ',')
        :: row_chunks fmt_f rand RAND_MAX n c (i + 1) (k + 1)

/-- The first `n` integers of a stream, read by `n` successive conversions `"%d"` that all
succeed; `none` when one of them converts nothing. -/
def scan_ints (scanf_d : List Char → Option Int × List Char) : Nat → List Char → Option (List Int)
  | 0, _ => some []
  | n + 1, fp =>
    match (scanf_d fp).1 with
    | none => none
    | some v => (scan_ints scanf_d n (scanf_d fp).2).map fun vs => v :: vs

/-- A check of `pct_f_text` by computation. -/
def is_pct_f (t : List Char) : Bool :=
  let s := if t.head? = some '-' then t.tail else t
  match s.dropWhile isdigit with
  | '.' :: fr => !(s.takeWhile isdigit).isEmpty && fr.all isdigit && fr.length == 6
  | _ => false

/-! ## Concrete models used as inputs -/

/-- A model with one hidden layer: 2 inputs, 2 hidden neurons, 1 output. -/
def two_layer_model : TinyNN_Model ℝ :=
  { input_size := 2, output_size := 1, hidden_layers := 1, layer_sizes := [2, 1],
    weights := [[1, -1, 2, 3], [1, 1]], biases := [[0, 1], [2]] }

/-- Allocated memory that holds zeros. -/
def zero_memory : Uninit :=
  { input_size := 0, output_size := 0, hidden_layers := 0, layer_sizes := fun _ => 0,
    weights := fun _ => false, biases := fun _ => false }

/-- A model directory with one hidden layer: 2 inputs, 2 hidden neurons, 1 output. -/
def two_layer_dir : String → Option (List Char) :=
  dir_of [("architecture.txt", "2\n1\n1\n2\n1\n".toList),
    ("layer_0_weights.csv", "1.0,-1.0\n2.0,3.0\n".toList),
    ("layer_0_biases.csv", "0.0,1.0".toList),
    ("layer_1_weights.csv", "1.0,1.0\n".toList),
    ("layer_1_biases.csv", "2.0".toList)]

/-- A model directory whose `architecture.txt` declares `output_size` 2 and a single layer
of size 1. -/
def mismatch_dir : String → Option (List Char) :=
  dir_of [("architecture.txt", "1\n2\n0\n1\n".toList),
    ("layer_0_weights.csv", "0.5\n".toList),
    ("layer_0_biases.csv", "0.25".toList)]

/-- Allocated memory whose `layer_sizes` buffer holds ones. -/
def one_memory : Uninit :=
  { input_size := 0, output_size := 0, hidden_layers := 0, layer_sizes := fun _ => 1,
    weights := fun _ => false, biases := fun _ => false }

/-- Allocated memory whose pointer arrays hold something other than null pointers. -/
def used_memory : Uninit :=
  { input_size := 0, output_size := 0, hidden_layers := 0, layer_sizes := fun _ => 0,
    weights := fun _ => true, biases := fun _ => true }

/-- A model directory whose `architecture.txt` stops after `hidden_layer_count`: the layer
size is missing. -/
def truncated_dir : String → Option (List Char) :=
  dir_of [("architecture.txt", "2\n1\n0\n".toList),
    ("layer_0_weights.csv", "0.5,0.25\n".toList),
    ("layer_0_biases.csv", "0.125".toList)]

/-- A stream of values of `(float)rand()` between 0 and 10, for `RAND_MAX = 10`. -/
def sample_rand (k : Nat) : ℚ := ((k * 7 % 11 : Nat) : ℚ)

/-- The directory `two_layer_dir` with the last value of `layer_0_weights.csv` removed: three
weights where `2 * 2` are expected. -/
def short_first_layer_dir : String → Option (List Char) :=
  dir_of [("architecture.txt", "2\n1\n1\n2\n1\n".toList),
    ("layer_0_weights.csv", "1.0,-1.0\n2.0\n".toList),
    ("layer_0_biases.csv", "0.0,1.0".toList),
    ("layer_1_weights.csv", "1.0,1.0\n".toList),
    ("layer_1_biases.csv", "2.0".toList)]

/-- The directory `two_layer_dir` with the last value of `layer_1_weights.csv` removed: one
weight where `1 * 2` are expected in the last layer. -/
def short_last_layer_dir : String → Option (List Char) :=
  dir_of [("architecture.txt", "2\n1\n1\n2\n1\n".toList),
    ("layer_0_weights.csv", "1.0,-1.0\n2.0,3.0\n".toList),
    ("layer_0_biases.csv", "0.0,1.0".toList),
    ("layer_1_weights.csv", "1.0\n".toList),
    ("layer_1_biases.csv", "2.0".toList)]

/-- A model directory for `2^30` inputs and one layer of size 4: `4 * 2^30` weights are
expected, and `layer_0_weights.csv` is empty. -/
def wide_input_dir : String → Option (List Char) :=
  dir_of [("architecture.txt", "1073741824\n4\n0\n4\n".toList),
    ("layer_0_weights.csv", []),
    ("layer_0_biases.csv", "0.5,0.25,0.125,0.0625".toList)]

/-- The model of shape Micro (16 inputs, layers of 8 and 4 neurons) whose weights and biases
are all zero. -/
def micro_shape_model : TinyNN_Model α :=
  { input_size := 16, output_size := 4, hidden_layers := 1, layer_sizes := [8, 4],
    weights := [List.replicate 128 0, List.replicate 32 0],
    biases := [List.replicate 8 0, List.replicate 4 0] }

/-- A text with one decimal integer per line: each integer of `ns`, in order, followed by a
newline. -/
def int_lines : List Int → List Char
  | [] => []
  | n :: ns => fmt_d n ++ '\n' :: int_lines ns

/-- The activation that enters layer `i` in the reference forward pass: the fold of
`layer_ref` over the layers before `i`. -/
def activation_ref (expf : α → α) (m : TinyNN_Model α) (input : List α) (i : Nat) : List α :=
  (List.range i).foldl (fun a k => layer_ref expf m k a) input

/-- The `"%f"` texts of `c` successive random values, from the `k`-th call of `rand` on. -/
def value_texts (fmt_f : α → List Char) (rand : Nat → α) (RAND_MAX : α) :
    Nat → Nat → List (List Char)
  | 0, _ => []
  | c + 1, k => fmt_f (random_float RAND_MAX (rand k)) :: value_texts fmt_f rand RAND_MAX c (k + 1)

/-- Texts separated by single commas. -/
def comma_separated : List (List Char) → List Char
  | [] => []
  | [t] => t
  | t :: u :: ts => t ++ ',' :: comma_separated (u :: ts)

/-- Rows of `n` comma-separated values each, from the `k`-th call of `rand` on, every row
followed by a NUL character and a newline. -/
def nul_terminated_rows (fmt_f : α → List Char) (rand : Nat → α) (RAND_MAX : α) (n : Nat) :
    Nat → Nat → List Char
  | 0, _ => []
  | c + 1, k =>
    comma_separated (value_texts fmt_f rand RAND_MAX n k)
      ++ Char.ofNat 0 :: '\n' :: nul_terminated_rows fmt_f rand RAND_MAX n c (k + n)

/-- The entry Micro of the preset table. -/
def micro_preset : ModelPreset :=
  { name := "Micro", input_size := 16, output_size := 4, num_layers := 2,
    layer_sizes := micro_layers }

/-- A decimal numeral: whether it has a `-` sign, its integer digits and, when it has a
point, its fraction digits. -/
structure Decimal where
  neg : Bool
  int_digits : List Char
  frac_digits : Option (List Char)

/-- The text of the fraction of a decimal numeral: nothing, or a point and digits. -/
def frac_text : Option (List Char) → List Char
  | none => []
  | some f => '.' :: f

/-- The text of a decimal numeral: `[-]digits[.digits]`. -/
def decimal_text (d : Decimal) : List Char :=
  (if d.neg then ['-'] else []) ++ d.int_digits ++ frac_text d.frac_digits

/-- A decimal numeral is well formed when it has at least one integer digit and all its
digits are decimal digits. -/
def decimal_ok (d : Decimal) : Prop :=
  d.int_digits ≠ [] ∧ (∀ c ∈ d.int_digits, isdigit c = true) ∧
    ∀ c ∈ d.frac_digits.getD [], isdigit c = true

/-- The number a decimal numeral denotes: the integer its digits spell, scaled by the number
of fraction digits, with its sign. -/
def decimal_value (d : Decimal) : α :=
  (if d.neg then -1 else 1) * (digits_val (d.int_digits ++ d.frac_digits.getD []) : α)
    * (10 : α) ^ (0 - ((d.frac_digits.getD []).length : Int))

/-- A separator between two values: a comma, white space, or a comma followed by white
space. -/
def is_separator (s : List Char) : Prop :=
  ∃ ws : List Char, (∀ c ∈ ws, isspace c = true) ∧ (s = ',' :: ws ∨ (s = ws ∧ ws ≠ []))

/-- The text of a sequence of values, each given with the characters that follow it. -/
def csv_text : List (Decimal × List Char) → List Char
  | [] => []
  | item :: rest => decimal_text item.1 ++ item.2 ++ csv_text rest

/-- A sequence of well-formed values in which a separator follows every value but the last;
the last is followed by nothing or by a separator (such as a final newline). -/
def csv_ok : List (Decimal × List Char) → Prop
  | [] => True
  | [item] => decimal_ok item.1 ∧ (item.2 = [] ∨ is_separator item.2)
  | item :: next :: rest => decimal_ok item.1 ∧ is_separator item.2 ∧ csv_ok (next :: rest)

/-- The values of the text `"1.5,2.25\n-0.5, 3\n0.1"`: two rows of two values and one of
one value, with a comma or a comma and a space inside a row and a newline between rows. -/
def sample_rows : List (Decimal × List Char) :=
  [({ neg := false, int_digits := ['1'], frac_digits := some ['5'] }, [',']),
   ({ neg := false, int_digits := ['2'], frac_digits := some ['2', '5'] }, ['\n']),
   ({ neg := true, int_digits := ['0'], frac_digits := some ['5'] }, [',', ' ']),
   ({ neg := false, int_digits := ['3'], frac_digits := none }, ['\n']),
   ({ neg := false, int_digits := ['0'], frac_digits := some ['1'] }, [])]

/-! # Theorems -/

/-! ## Loops and the activation kernels -/

theorem getElem?_append_length {β : Type} (pre : List β) (x : β) (t : List β) :
    (pre ++ x :: t)[pre.length]? = some x := by
  rw [List.getElem?_append_right (le_refl _)]
  simp

theorem set_append_length {β : Type} (pre : List β) (x y : β) (t : List β) :
    (pre ++ x :: t).set pre.length y = pre ++ y :: t := by
  induction pre with
  | nil => rfl
  | cons a p ih => simp [ih]

theorem relu_eq_max (x : α) : relu x = max x 0 := by
  unfold relu
  split_ifs with h
  · exact (max_eq_left (le_of_lt h)).symm
  · exact (max_eq_right (not_lt.mp h)).symm

theorem ite_gt_eq_max (x m : α) : (if x > m then x else m) = max m x := by
  split_ifs with h
  · exact (max_eq_right (le_of_lt h)).symm
  · exact (max_eq_left (not_lt.mp h)).symm

theorem max_loop (pre suf : List α) (m : α) :
    for_loop (softmax_max_body (pre ++ suf)) suf.length pre.length m = some (suf.foldl max m) := by
  induction suf generalizing pre m with
  | nil => simp [for_loop]
  | cons x t ih =>
    have h := ih (pre ++ [x]) (max m x)
    simp only [List.append_assoc, List.singleton_append, List.length_append, List.length_singleton] at h
    simp only [for_loop, softmax_max_body, getElem?_append_length, Option.map_some', Option.some_bind, List.length_cons, ite_gt_eq_max, List.foldl_cons]
    exact h

theorem exp_loop (expf : α → α) (mx : α) (pre suf : List α) (s : α) :
    for_loop (softmax_exp_body expf mx) suf.length pre.length (pre ++ suf, s)
      = some (pre ++ suf.map (fun x => expf (x - mx)),
              (suf.map (fun x => expf (x - mx))).foldl (· + ·) s) := by
  induction suf generalizing pre s with
  | nil => simp [for_loop]
  | cons x t ih =>
    have h := ih (pre ++ [expf (x - mx)]) (s + expf (x - mx))
    simp only [List.append_assoc, List.singleton_append, List.length_append, List.length_singleton] at h
    simp only [for_loop, softmax_exp_body, getElem?_append_length, set_append_length, Option.map_some', Option.some_bind, List.length_cons, List.map_cons, List.foldl_cons]
    exact h

theorem div_loop (sum : α) (pre suf : List α) :
    for_loop (softmax_div_body sum) suf.length pre.length (pre ++ suf)
      = some (pre ++ suf.map (fun x => x / sum)) := by
  induction suf generalizing pre with
  | nil => simp [for_loop]
  | cons x t ih =>
    have h := ih (pre ++ [x / sum])
    simp only [List.append_assoc, List.singleton_append, List.length_append, List.length_singleton] at h
    simp only [for_loop, softmax_div_body, getElem?_append_length, set_append_length, Option.map_some', Option.some_bind, List.length_cons, List.map_cons]
    exact h

theorem foldl_add_eq_sum (l : List α) (s : α) : l.foldl (· + ·) s = s + l.sum := by
  induction l generalizing s with
  | nil => simp
  | cons x t ih => simp [ih, add_assoc]

/-- On a non-empty array of exactly `length` elements, `softmax` stays in bounds and computes
the reference softmax. -/
theorem softmax_eq_ref (expf : α → α) (v : List α) (hv : v ≠ []) :
    softmax expf v (v.length : Int) = some (softmax_ref expf v) := by
  obtain ⟨x, t, rfl⟩ := List.exists_cons_of_ne_nil hv
  have h1 := max_loop [x] t x
  have h2 := exp_loop expf (t.foldl max x) [] (x :: t) 0
  have h3 := div_loop (((x :: t).map (fun y => expf (y - t.foldl max x))).foldl (· + ·) 0) []
    ((x :: t).map (fun y => expf (y - t.foldl max x)))
  simp only [List.length_map, List.length_nil, List.nil_append, List.length_singleton,
    List.singleton_append] at h1 h2 h3
  have e1 : ((((x :: t).length : Nat) : Int) - 1).toNat = t.length := by
    simp
  have e2 : (((x :: t).length : Nat) : Int).toNat = (x :: t).length := by
    simp
  unfold softmax
  rw [e1, e2]
  simp only [List.getElem?_cons_zero, Option.some_bind, h1, h2, h3]
  simp only [softmax_ref, vec_max, foldl_add_eq_sum, zero_add, List.map_map]
  rfl

theorem vec_max_foldl_mem (xs : List α) (a : α) : xs.foldl max a ∈ a :: xs := by
  induction xs generalizing a with
  | nil => simp
  | cons x t ih =>
    have h := ih (max a x)
    simp only [List.foldl_cons]
    rcases List.mem_cons.mp h with h | h
    · rw [h]
      rcases max_choice a x with h' | h' <;> simp [h']
    · simp [h]

theorem le_foldl_max (xs : List α) (a : α) : a ≤ xs.foldl max a := by
  induction xs generalizing a with
  | nil => simp
  | cons x t ih => exact le_trans (le_max_left a x) (ih (max a x))

theorem foldl_max_ge (xs : List α) (a : α) : ∀ y ∈ a :: xs, y ≤ xs.foldl max a := by
  induction xs generalizing a with
  | nil => simp
  | cons x t ih =>
    intro y hy
    simp only [List.foldl_cons]
    rcases List.mem_cons.mp hy with h | h
    · rw [h]; exact le_trans (le_max_left a x) (le_foldl_max t _)
    · rcases List.mem_cons.mp h with h | h
      · rw [h]; exact le_trans (le_max_right a x) (le_foldl_max t _)
      · exact ih (max a x) y (List.mem_cons_of_mem _ h)

theorem vec_max_mem (v : List α) (hv : v ≠ []) : vec_max v ∈ v := by
  obtain ⟨x, t, rfl⟩ := List.exists_cons_of_ne_nil hv
  exact vec_max_foldl_mem t x

theorem le_vec_max (v : List α) : ∀ y ∈ v, y ≤ vec_max v := by
  cases v with
  | nil => simp
  | cons x t => exact foldl_max_ge t x

theorem vec_max_shift (v : List α) (hv : v ≠ []) (c : α) :
    vec_max (v.map (· + c)) = vec_max v + c := by
  apply le_antisymm
  · have hm := vec_max_mem (v.map (· + c)) (by simpa using hv)
    obtain ⟨y, hy, hy'⟩ := List.mem_map.mp hm
    rw [← hy']
    exact add_le_add_right (le_vec_max v y hy) c
  · exact le_vec_max _ _ (List.mem_map.mpr ⟨vec_max v, vec_max_mem v hv, rfl⟩)

theorem softmax_ref_shift (expf : α → α) (v : List α) (hv : v ≠ []) (c : α) :
    softmax_ref expf (v.map (· + c)) = softmax_ref expf v := by
  unfold softmax_ref
  rw [vec_max_shift v hv c]
  simp only [List.map_map, Function.comp_def, add_sub_add_right_eq_sub]

theorem softmax_ref_sum_pos (expf : α → α) (h0 : 0 < expf 0) (hnn : ∀ x, 0 ≤ expf x)
    (v : List α) (hv : v ≠ []) : 0 < (v.map fun y => expf (y - vec_max v)).sum := by
  have hmem : expf 0 ∈ v.map fun y => expf (y - vec_max v) :=
    List.mem_map.mpr ⟨vec_max v, vec_max_mem v hv, by simp⟩
  have hall : ∀ z ∈ v.map (fun y => expf (y - vec_max v)), 0 ≤ z := by
    intro z hz
    obtain ⟨y, _, rfl⟩ := List.mem_map.mp hz
    exact hnn _
  exact lt_of_lt_of_le h0 (List.single_le_sum hall _ hmem)

theorem sum_map_div (l : List α) (s : α) : (l.map (· / s)).sum = l.sum / s := by
  induction l with
  | nil => simp
  | cons x t ih => simp [ih, add_div]

theorem softmax_ref_sum (expf : α → α) (h0 : 0 < expf 0) (hnn : ∀ x, 0 ≤ expf x)
    (v : List α) (hv : v ≠ []) : (softmax_ref expf v).sum = 1 := by
  have hpos := softmax_ref_sum_pos expf h0 hnn v hv
  have : softmax_ref expf v
      = (v.map fun y => expf (y - vec_max v)).map (· / (v.map fun y => expf (y - vec_max v)).sum) := by
    simp [softmax_ref, List.map_map, Function.comp_def]
  rw [this, sum_map_div]
  exact div_self (ne_of_gt hpos)

theorem softmax_ref_nonneg (expf : α → α) (h0 : 0 < expf 0) (hnn : ∀ x, 0 ≤ expf x)
    (v : List α) (hv : v ≠ []) : ∀ y ∈ softmax_ref expf v, 0 ≤ y := by
  intro y hy
  obtain ⟨x, _, rfl⟩ := List.mem_map.mp hy
  exact div_nonneg (hnn _) (le_of_lt (softmax_ref_sum_pos expf h0 hnn v hv))

theorem for_loop_fold {σ : Type} (body : Nat → σ → Option σ) (g : Nat → σ → σ) (c k0 : Nat)
    (h : ∀ k, k0 ≤ k → k < k0 + c → ∀ s, body k s = some (g k s)) (s : σ) :
    for_loop body c k0 s = some ((List.range' k0 c).foldl (fun s k => g k s) s) := by
  induction c generalizing k0 s with
  | zero => simp [for_loop]
  | succ c ih =>
    have hb := h k0 (le_refl _) (by omega) s
    have := ih (k0 + 1) (fun k h1 h2 => h k (by omega) (by omega)) (g k0 s)
    simp [for_loop, hb, this, List.range'_succ]

theorem for_loop_fill {β : Type} (body : Nat → List β → Option (List β)) (v : Nat → β)
    (pre suf : List β)
    (h : ∀ j, pre.length ≤ j → j < pre.length + suf.length → ∀ out, body j out = write_at out j (v j)) :
    for_loop body suf.length pre.length (pre ++ suf)
      = some (pre ++ (List.range' pre.length suf.length).map v) := by
  induction suf generalizing pre with
  | nil => simp [for_loop]
  | cons x t ih =>
    have hb := h pre.length (le_refl _) (by simp) (pre ++ x :: t)
    have := ih (pre ++ [v pre.length]) (fun j h1 h2 => h j (by simp at h1; omega)
      (by simp at h1 h2 ⊢; omega))
    simp only [List.append_assoc, List.singleton_append, List.length_append,
      List.length_singleton] at this
    simp only [for_loop, hb, write_at, List.length_append, List.length_cons,
      lt_add_iff_pos_right, Nat.zero_lt_succ, if_true, set_append_length, Option.some_bind,
      this, List.range'_succ, List.map_cons]

theorem relu_loop (pre suf : List α) :
    for_loop relu_body suf.length pre.length (pre ++ suf)
      = some (pre ++ suf.map fun x => max x 0) := by
  induction suf generalizing pre with
  | nil => simp [for_loop]
  | cons x t ih =>
    have h := ih (pre ++ [max x 0])
    simp only [List.append_assoc, List.singleton_append, List.length_append,
      List.length_singleton] at h
    simp only [for_loop, relu_body, getElem?_append_length, set_append_length,
      Option.map_some', Option.some_bind, List.length_cons, List.map_cons, relu_eq_max]
    exact h

theorem foldl_add_map (f : Nat → α) (l : List Nat) (s : α) :
    l.foldl (fun s k => s + f k) s = s + (l.map f).sum := by
  induction l generalizing s with
  | nil => simp
  | cons x t ih => simp [ih, add_assoc]

/-- The dot-product loop of neuron `j` stays in bounds and computes the sum of the products. -/
theorem dot_loop (m : TinyNN_Model α) (i : Nat) (w a : List α) (p : Int) (j : Nat)
    (hw : m.weights[i]? = some w) (ha : a.length = p.toNat)
    (hj : j * p.toNat + p.toNat ≤ w.length) :
    for_loop (dot_body m i a p j) p.toNat 0 0
      = some ((List.range p.toNat).map fun k => w.getD (j * p.toNat + k) 0 * a.getD k 0).sum := by
  rw [for_loop_fold (dot_body m i a p j)
    (fun k s => s + w.getD (j * p.toNat + k) 0 * a.getD k 0)]
  · rw [foldl_add_map, zero_add, List.range_eq_range']
  · intro k _ hk s
    have hp : (p.toNat : Int) = p := Int.toNat_of_nonneg (by omega)
    have hidx : ((j : Int) * p + (k : Int)).toNat = j * p.toNat + k := by
      rw [← hp]; norm_cast
    have hnn : ¬ ((j : Int) * p + (k : Int) < 0) := by
      rw [← hp]; norm_cast; omega
    have hk1 : j * p.toNat + k < w.length := by omega
    have hk2 : k < a.length := by omega
    simp only [dot_body, hw, Option.some_bind, read_at, hnn, if_false, hidx,
      List.getElem?_eq_getElem hk1, List.getElem?_eq_getElem hk2, Option.map_some',
      List.getD_eq_getElem _ _ hk1, List.getD_eq_getElem _ _ hk2]

theorem toNat_mul_bound (s p : Int) (j : Nat) (hj : j < s.toNat) :
    j * p.toNat + p.toNat ≤ (s * p).toNat := by
  rcases le_or_lt p 0 with hp | hp
  · have : p.toNat = 0 := Int.toNat_eq_zero.mpr hp
    simp [this]
  · have hs : 0 ≤ s := by omega
    have e : (s * p).toNat = s.toNat * p.toNat := by
      have h1 : ((s.toNat * p.toNat : Nat) : Int) = s * p := by
        push_cast
        rw [Int.toNat_of_nonneg hs, Int.toNat_of_nonneg (le_of_lt hp)]
      rw [← h1]
      exact Int.toNat_natCast _
    rw [e]
    calc j * p.toNat + p.toNat = (j + 1) * p.toNat := by ring
      _ ≤ s.toNat * p.toNat := Nat.mul_le_mul_right _ hj

/-- The loop over the output neurons stays in bounds and computes the affine transform. -/
theorem neuron_loop (m : TinyNN_Model α) (i : Nat) (w b a : List α) (p s : Int)
    (hw : m.weights[i]? = some w) (hb : m.biases[i]? = some b) (ha : a.length = p.toNat)
    (hwl : w.length = (s * p).toNat) (hbl : b.length = s.toNat) :
    for_loop (neuron_body m i a p) s.toNat 0 (List.replicate s.toNat 0)
      = some (affine_ref w b p.toNat s.toNat a) := by
  have h := for_loop_fill (neuron_body m i a p)
    (fun j => b.getD j 0 + ((List.range p.toNat).map fun k =>
      w.getD (j * p.toNat + k) 0 * a.getD k 0).sum) [] (List.replicate s.toNat (0 : α))
    (by
      intro j _ hj out
      simp only [List.length_nil, List.length_replicate, zero_add] at hj
      have hj2 : j < b.length := by omega
      rw [neuron_body, dot_loop m i w a p j hw ha
        (by rw [hwl]; exact toNat_mul_bound s p j hj)]
      simp only [Option.some_bind, hb, List.getElem?_eq_getElem hj2,
        List.getD_eq_getElem _ _ hj2, add_comm])
  simp only [List.length_nil, List.length_replicate, List.nil_append] at h
  rw [h, affine_ref, List.range_eq_range' (n := s.toNat)]

theorem affine_ref_length (w b a : List α) (P S : Nat) : (affine_ref w b P S a).length = S := by
  simp [affine_ref]

/-- One iteration of the layer loop stays in bounds and computes the reference layer. -/
theorem layer_body_eq (expf : α → α) (m : TinyNN_Model α) (i : Nat) (w b a : List α) (p s : Int)
    (hs : m.layer_sizes[i]? = some s) (hw : m.weights[i]? = some w)
    (hb : m.biases[i]? = some b) (hp : prev_layer_size m i = p) (ha : a.length = p.toNat)
    (hwl : w.length = (s * p).toNat) (hbl : b.length = s.toNat)
    (hlast : ¬ ((i : Int) < m.hidden_layers) → 1 ≤ s) :
    layer_body expf m i (a, p) = some (layer_ref expf m i a, s) := by
  have hs' : m.layer_sizes.getD i 0 = s := by simp [List.getD_eq_getElem?_getD, hs]
  have hw' : m.weights.getD i [] = w := by simp [List.getD_eq_getElem?_getD, hw]
  have hb' : m.biases.getD i [] = b := by simp [List.getD_eq_getElem?_getD, hb]
  simp only [layer_body, hs, Option.some_bind, neuron_loop m i w b a p s hw hb ha hwl hbl,
    layer_ref, hs', hw', hb', hp]
  split_ifs with hi
  · have := relu_loop [] (affine_ref w b p.toNat s.toNat a)
    simp only [List.length_nil, List.nil_append, affine_ref_length] at this
    simp [this]
  · have hne : affine_ref w b p.toNat s.toNat a ≠ [] := by
      intro h0
      have := affine_ref_length w b a p.toNat s.toNat
      rw [h0] at this
      have h1 := hlast hi
      simp at this
      omega
    have := softmax_eq_ref expf _ hne
    rw [affine_ref_length, Int.toNat_of_nonneg (by have := hlast hi; omega)] at this
    simp [this]

/-- The layer loop from layer `i` on, under the shape conditions for the layers it visits. -/
theorem layer_loop_eq (expf : α → α) (m : TinyNN_Model α) (c i : Nat) (a : List α)
    (ha : a.length = (prev_layer_size m i).toNat)
    (hshape : ∀ k, i ≤ k → k < i + c → ∃ s w b, m.layer_sizes[k]? = some s ∧
      m.weights[k]? = some w ∧ m.biases[k]? = some b ∧
      w.length = (s * prev_layer_size m k).toNat ∧ b.length = s.toNat ∧
      (¬ ((k : Int) < m.hidden_layers) → 1 ≤ s)) :
    for_loop (layer_body expf m) c i (a, prev_layer_size m i)
      = some ((List.range' i c).foldl (fun a k => layer_ref expf m k a) a,
          prev_layer_size m (i + c)) := by
  induction c generalizing i a with
  | zero => simp [for_loop]
  | succ c ih =>
    obtain ⟨s, w, b, hs, hw, hb, hwl, hbl, hlast⟩ := hshape i (le_refl _) (by omega)
    have hnext : prev_layer_size m (i + 1) = s := by
      simp [prev_layer_size, List.getD_eq_getElem?_getD, hs]
    have hlen : (layer_ref expf m i a).length = (prev_layer_size m (i + 1)).toNat := by
      have hs' : m.layer_sizes.getD i 0 = s := by simp [List.getD_eq_getElem?_getD, hs]
      rw [hnext, layer_ref, hs']
      split_ifs <;> simp [softmax_ref, affine_ref_length]
    have h := ih (i + 1) (layer_ref expf m i a) hlen
      (fun k h1 h2 => hshape k (by omega) (by omega))
    rw [for_loop, layer_body_eq expf m i w b a _ s hs hw hb rfl ha hwl hbl hlast,
      Option.some_bind, ← hnext, h, List.range'_succ, List.foldl_cons]
    congr 3
    omega

/-- Under the shape conditions for every layer, `forward_pass` stays in bounds and returns
the reference fold. -/
theorem forward_pass_of_shape (expf : α → α) (m : TinyNN_Model α) (input : List α)
    (hin : input.length = m.input_size.toNat)
    (hshape : ∀ k, k < (m.hidden_layers + 1).toNat → ∃ s w b, m.layer_sizes[k]? = some s ∧
      m.weights[k]? = some w ∧ m.biases[k]? = some b ∧
      w.length = (s * prev_layer_size m k).toNat ∧ b.length = s.toNat ∧
      (¬ ((k : Int) < m.hidden_layers) → 1 ≤ s)) :
    forward_pass expf m input = some (forward_ref expf m input) := by
  have h := layer_loop_eq expf m (m.hidden_layers + 1).toNat 0 input
    (by simpa [prev_layer_size] using hin)
    (fun k _ hk => hshape k (by omega))
  have h0 : prev_layer_size m 0 = m.input_size := by simp [prev_layer_size]
  rw [h0] at h
  rw [forward_pass, h, forward_ref, List.range_eq_range']
  rfl

/-- The Model invariant and an output layer of at least one neuron give the shape conditions
of `forward_pass_of_shape`. -/
theorem shape_of_inv (m : TinyNN_Model α) (hinv : ModelInv m)
    (hout : 1 ≤ m.layer_sizes.getD m.hidden_layers.toNat 0) :
    ∀ k, k < (m.hidden_layers + 1).toNat → ∃ s w b, m.layer_sizes[k]? = some s ∧
      m.weights[k]? = some w ∧ m.biases[k]? = some b ∧
      w.length = (s * prev_layer_size m k).toNat ∧ b.length = s.toNat ∧
      (¬ ((k : Int) < m.hidden_layers) → 1 ≤ s) := by
  obtain ⟨h0, hl, hwn, hbn, hw, hb⟩ := hinv
  intro k hk
  have hk1 : k < m.layer_sizes.length := by omega
  have hk2 : k < m.weights.length := by omega
  have hk3 : k < m.biases.length := by omega
  refine ⟨m.layer_sizes[k], m.weights[k], m.biases[k], List.getElem?_eq_getElem hk1,
    List.getElem?_eq_getElem hk2, List.getElem?_eq_getElem hk3, ?_, ?_, ?_⟩
  · have := hw k hk1
    rw [List.getD_eq_getElem _ _ hk2, List.getD_eq_getElem _ _ hk1] at this
    rw [← this]; simp
  · have := hb k hk1
    rw [List.getD_eq_getElem _ _ hk3, List.getD_eq_getElem _ _ hk1] at this
    rw [← this]; simp
  · intro hlt
    have hkeq : k = m.hidden_layers.toNat := by omega
    subst hkeq
    rw [List.getD_eq_getElem _ _ hk1] at hout
    exact hout

theorem forward_ref_last (expf : α → α) (m : TinyNN_Model α) (input : List α)
    (h0 : 0 ≤ m.hidden_layers) :
    ∃ z : List α, z.length = (m.layer_sizes.getD m.hidden_layers.toNat 0).toNat ∧
      forward_ref expf m input = softmax_ref expf z := by
  have e : (m.hidden_layers + 1).toNat = m.hidden_layers.toNat + 1 := by omega
  have hn : ¬ ((m.hidden_layers.toNat : Int) < m.hidden_layers) := by omega
  rw [forward_ref, e, List.range_succ, List.foldl_append]
  simp only [List.foldl_cons, List.foldl_nil, layer_ref, hn, if_false]
  exact ⟨_, affine_ref_length _ _ _ _ _, rfl⟩

/-! ## Claims about the activation kernels -/

/-- Claim C10: `relu(x) == x` for every `x > 0`, `relu(x) == 0` for every `x ≤ 0`, in
particular `relu(0) == 0`; that is, `relu(x) == max(x, 0)`. -/
theorem relu_spec (x : α) :
    (0 < x → relu x = x) ∧ (x ≤ 0 → relu x = 0) ∧ relu (0 : α) = 0 ∧ relu x = max x 0 := by
  refine ⟨fun h => ?_, fun h => ?_, ?_, relu_eq_max x⟩
  · rw [relu_eq_max]; exact max_eq_left (le_of_lt h)
  · rw [relu_eq_max]; exact max_eq_right h
  · rw [relu_eq_max]; exact max_self 0

/-- Claim C4: for every non-empty vector `v`, `softmax` (called with the length of `v`)
returns a vector of the same length whose elements are `≥ 0` and sum to 1, and each element
is `exp(v[i] - max v) / Σ_j exp(v[j] - max v)`, where `max v` is an element of `v` that no
element exceeds. Of `expf` only `expf x ≥ 0` and `expf 0 > 0` are used. -/
theorem softmax_spec (expf : α → α) (h0 : 0 < expf 0) (hnn : ∀ x, 0 ≤ expf x)
    (v : List α) (hv : v ≠ []) :
    ∃ out mx, softmax expf v (v.length : Int) = some out ∧ out.length = v.length ∧
      (∀ y ∈ out, 0 ≤ y) ∧ out.sum = 1 ∧ mx ∈ v ∧ (∀ y ∈ v, y ≤ mx) ∧
      out = v.map fun x => expf (x - mx) / (v.map fun y => expf (y - mx)).sum :=
  ⟨softmax_ref expf v, vec_max v, softmax_eq_ref expf v hv, by simp [softmax_ref],
    softmax_ref_nonneg expf h0 hnn v hv, softmax_ref_sum expf h0 hnn v hv,
    vec_max_mem v hv, le_vec_max v, rfl⟩

/-- Witness of `softmax_spec`: the real exponential on the vector `[1, 3, 2]`. -/
theorem softmax_spec_witness :
    (0 < Real.exp 0 ∧ (∀ x, 0 ≤ Real.exp x) ∧ ([1, 3, 2] : List ℝ) ≠ []) ∧
    ∃ out mx, softmax Real.exp [1, 3, 2] (([1, 3, 2] : List ℝ).length : Int) = some out ∧
      out.length = ([1, 3, 2] : List ℝ).length ∧
      (∀ y ∈ out, 0 ≤ y) ∧ out.sum = 1 ∧ mx ∈ ([1, 3, 2] : List ℝ) ∧
      (∀ y ∈ ([1, 3, 2] : List ℝ), y ≤ mx) ∧
      out = ([1, 3, 2] : List ℝ).map fun x =>
        Real.exp (x - mx) / (([1, 3, 2] : List ℝ).map fun y => Real.exp (y - mx)).sum :=
  ⟨⟨Real.exp_pos 0, fun x => (Real.exp_pos x).le, by simp⟩,
    softmax_spec Real.exp (Real.exp_pos 0) (fun x => (Real.exp_pos x).le) [1, 3, 2] (by simp)⟩

/-- Claim C5, as the code has it: in exact arithmetic, where the sums `v[i] + c` are not
rounded, `softmax` is invariant under adding a constant to every element: for every non-empty
vector `v` and every scalar `c`, `softmax(v + c)` and `softmax(v)` return the same vector
(for any `expf`). -/
theorem softmax_shift_invariant (expf : α → α) (v : List α) (hv : v ≠ []) (c : α) :
    ∃ out, softmax expf v (v.length : Int) = some out ∧
      softmax expf (v.map (· + c)) ((v.map (· + c)).length : Int) = some out := by
  refine ⟨softmax_ref expf v, softmax_eq_ref expf v hv, ?_⟩
  rw [softmax_eq_ref expf (v.map (· + c)) (by simpa using hv), softmax_ref_shift expf v hv c]

/-- Witness of `softmax_shift_invariant`: the vector `[1, 3, 2]` shifted by `10`. -/
theorem softmax_shift_invariant_witness :
    ([1, 3, 2] : List ℝ) ≠ [] ∧
    ∃ out, softmax Real.exp [1, 3, 2] (([1, 3, 2] : List ℝ).length : Int) = some out ∧
      softmax Real.exp (([1, 3, 2] : List ℝ).map (· + 10))
        ((([1, 3, 2] : List ℝ).map (· + 10)).length : Int) = some out :=
  ⟨by simp, softmax_shift_invariant Real.exp [1, 3, 2] (by simp) 10⟩

/-- In single precision the sum of `1`, `3` or `2` and `10^8` is `10^8`: the floats next to
`10^8` are 8 apart. -/
theorem float_add_large (x : ℚ) (hx : x = 1 ∨ x = 3 ∨ x = 2) :
    float_add x 100000000 = 100000000 := by
  rcases hx with rfl | rfl | rfl <;>
    exact Rat.ext (by with_unfolding_all decide) (by with_unfolding_all decide)

/-- Counterexample to claim C5 as stated: adding the scalar `10^8` to every element of the
vector `[1, 3, 2]` gives, in single precision, the vector `[10^8, 10^8, 10^8]`, whose softmax
is `[1/3, 1/3, 1/3]`, while the softmax of `[1, 3, 2]` is not. -/
theorem softmax_shift_invariant_counterexample :
    ([1, 3, 2] : List ℚ).map (fun x => float_add x 100000000)
      = [100000000, 100000000, 100000000] ∧
    softmax Real.exp (([1, 3, 2] : List ℚ).map fun x => ((float_add x 100000000 : ℚ) : ℝ)) 3
      = some [1 / 3, 1 / 3, 1 / 3] ∧
    softmax Real.exp ([1, 3, 2] : List ℝ) 3 ≠ some [1 / 3, 1 / 3, 1 / 3] := by
  have e1 := float_add_large 1 (Or.inl rfl)
  have e3 := float_add_large 3 (Or.inr (Or.inl rfl))
  have e2 := float_add_large 2 (Or.inr (Or.inr rfl))
  refine ⟨by simp only [List.map, e1, e2, e3], ?_, ?_⟩
  · simp only [List.map, e1, e2, e3]
    have h := softmax_eq_ref Real.exp ([((100000000 : ℚ) : ℝ), ((100000000 : ℚ) : ℝ),
      ((100000000 : ℚ) : ℝ)]) (by simp)
    simp only [List.length_cons, List.length_nil] at h
    rw [show (3 : Int) = ((0 + 1 + 1 + 1 : Nat) : Int) by rfl, h]
    simp only [softmax_ref, vec_max, List.foldl, max_self, sub_self, Real.exp_zero, List.map,
      List.sum_cons, List.sum_nil, Option.some.injEq]
    norm_num
  · have h := softmax_eq_ref Real.exp ([1, 3, 2] : List ℝ) (by simp)
    simp only [List.length_cons, List.length_nil] at h
    rw [show (3 : Int) = ((0 + 1 + 1 + 1 : Nat) : Int) by rfl, h]
    simp only [softmax_ref, vec_max, List.foldl, List.map, List.sum_cons, List.sum_nil,
      Option.some.injEq, List.cons.injEq, and_true, ne_eq, not_and]
    intro h1 h2
    have hm : max (max (1 : ℝ) 3) 2 = 3 := by norm_num
    rw [hm] at h1 h2
    have hS : (0 : ℝ) < Real.exp (1 - 3) + (Real.exp (3 - 3) + (Real.exp (2 - 3) + 0)) := by
      positivity
    have h12 : Real.exp (1 - 3) = Real.exp (3 - 3) := by
      have := h1.trans h2.symm
      field_simp at this
      linarith
    have := Real.exp_injective h12
    norm_num at this

/-! ## Claims about the forward pass -/

/-- Claim C3: for every model satisfying the Model invariant with every layer size `≥ 1`, and
every input of length `input_size`, every element of the vector `forward_pass` returns is
`≥ 0` and the elements sum to 1. Of `expf` only `expf x ≥ 0` and `expf 0 > 0` are used. -/
theorem forward_pass_simplex (expf : α → α) (h0 : 0 < expf 0) (hnn : ∀ x, 0 ≤ expf x)
    (m : TinyNN_Model α) (input : List α) (hinv : ModelInv m)
    (hpos : ∀ s ∈ m.layer_sizes, 1 ≤ s) (hin : (input.length : Int) = m.input_size) :
    ∃ out, forward_pass expf m input = some out ∧ (∀ y ∈ out, 0 ≤ y) ∧ out.sum = 1 := by
  have hlt : m.hidden_layers.toNat < m.layer_sizes.length := by
    obtain ⟨h1, h2, _⟩ := hinv
    omega
  have hout : 1 ≤ m.layer_sizes.getD m.hidden_layers.toNat 0 := by
    rw [List.getD_eq_getElem _ _ hlt]
    exact hpos _ (List.getElem_mem _)
  obtain ⟨z, hz, hzref⟩ := forward_ref_last expf m input hinv.1
  have hzne : z ≠ [] := by
    intro h
    rw [h, List.length_nil] at hz
    omega
  refine ⟨forward_ref expf m input,
    forward_pass_of_shape expf m input (by omega) (shape_of_inv m hinv hout), ?_, ?_⟩
  · rw [hzref]; exact softmax_ref_nonneg expf h0 hnn z hzne
  · rw [hzref]; exact softmax_ref_sum expf h0 hnn z hzne

/-- Witness of `forward_pass_simplex`: the real exponential, a model with one hidden layer
and the input `[1, 2]`. -/
theorem forward_pass_simplex_witness :
    (0 < Real.exp 0 ∧ (∀ x, 0 ≤ Real.exp x) ∧ ModelInv two_layer_model ∧
      (∀ s ∈ two_layer_model.layer_sizes, 1 ≤ s) ∧
      ((([1, 2] : List ℝ).length : Nat) : Int) = two_layer_model.input_size) ∧
    ∃ out, forward_pass Real.exp two_layer_model [1, 2] = some out ∧
      (∀ y ∈ out, 0 ≤ y) ∧ out.sum = 1 :=
  ⟨⟨Real.exp_pos 0, fun x => (Real.exp_pos x).le, by unfold ModelInv; decide, by decide,
      by decide⟩,
    forward_pass_simplex Real.exp (Real.exp_pos 0) (fun x => (Real.exp_pos x).le)
      two_layer_model [1, 2] (by unfold ModelInv; decide) (by decide) (by decide)⟩

/-! ## Loading -/

/-- The loop of `load_float_array_from_csv` stores the values that `scan_values` reads. -/
theorem load_float_array_loop_eq (scanf_f : List Char → Option (α × List Char))
    (fp : List Char) (pre suf : List α) :
    load_float_array_loop scanf_f suf.length pre.length fp (pre ++ suf)
      = (scan_values scanf_f suf.length fp).map fun vr => pre ++ vr.1 := by
  induction suf generalizing pre fp with
  | nil => simp [load_float_array_loop, scan_values]
  | cons x t ih =>
    simp only [List.length_cons, load_float_array_loop, scan_values]
    cases hs : fscanf_f_comma scanf_f fp with
    | none => rfl
    | some r =>
      have h := ih r.2 (pre ++ [r.1])
      simp only [List.append_assoc, List.singleton_append, List.length_append,
        List.length_singleton] at h
      simp only [set_append_length, h, Option.map_map]
      rfl

/-- On an array of `num_elements` floats, `load_float_array_from_csv` succeeds exactly when
`num_elements` values can be read, and the array then holds them. -/
theorem load_float_array_from_csv_eq (scanf_f : List Char → Option (α × List Char))
    (fp : List Char) (array : List α) (n : Int) (hlen : array.length = n.toNat) :
    load_float_array_from_csv scanf_f (some fp) array n
      = (scan_values scanf_f n.toNat fp).map Prod.fst := by
  have h := load_float_array_loop_eq scanf_f fp [] array
  simp only [List.length_nil, List.nil_append, hlen] at h
  simp only [load_float_array_from_csv, h]

theorem scan_values_add (scanf_f : List Char → Option (α × List Char)) (a b : Nat)
    (fp : List Char) :
    scan_values scanf_f (a + b) fp
      = (scan_values scanf_f a fp).bind fun vr =>
          (scan_values scanf_f b vr.2).map fun vr2 => (vr.1 ++ vr2.1, vr2.2) := by
  induction a generalizing fp with
  | zero => simp [scan_values]
  | succ a ih =>
    rw [Nat.succ_add]
    simp only [scan_values]
    cases hs : fscanf_f_comma scanf_f fp with
    | none => rfl
    | some r =>
      simp only [ih r.2]
      cases scan_values scanf_f a r.2 with
      | none => rfl
      | some vr =>
        simp only [Option.some_bind, Option.map_some', Option.map_map]
        rfl

/-- A stream that holds fewer than `n` values does not yield `n` values. -/
theorem scan_values_of_holds_lt (scanf_f : List Char → Option (α × List Char))
    (fp : List Char) (vs : List α) (n : Nat) (h : holds_values scanf_f fp vs)
    (hlt : vs.length < n) : scan_values scanf_f n fp = none := by
  obtain ⟨rest, h1, h2⟩ := h
  obtain ⟨k, rfl⟩ : ∃ k, n = vs.length + (k + 1) := ⟨n - vs.length - 1, by omega⟩
  rw [scan_values_add, h1]
  simp [scan_values, h2]

theorem load_float_array_loop_length (scanf_f : List Char → Option (α × List Char))
    (c i : Nat) (fp : List Char) (array out : List α)
    (h : load_float_array_loop scanf_f c i fp array = some out) :
    out.length = array.length := by
  induction c generalizing i fp array with
  | zero =>
    simp only [load_float_array_loop, Option.some.injEq] at h
    rw [h]
  | succ c ih =>
    rw [load_float_array_loop] at h
    cases hs : fscanf_f_comma scanf_f fp with
    | none => rw [hs] at h; exact absurd h (by simp)
    | some r =>
      rw [hs] at h
      rw [ih _ _ _ h, List.length_set]

theorem load_float_array_from_csv_length (scanf_f : List Char → Option (α × List Char))
    (file : Option (List Char)) (array out : List α) (n : Int)
    (h : load_float_array_from_csv scanf_f file array n = some out) :
    out.length = array.length := by
  cases file with
  | none => exact absurd h (by simp [load_float_array_from_csv])
  | some fp => exact load_float_array_loop_length scanf_f _ _ fp array out h

theorem read_layer_sizes_length (scanf_d : List Char → Option Int × List Char) (c i : Nat)
    (fp : List Char) (sizes : List Int) :
    (read_layer_sizes scanf_d c i fp sizes).length = sizes.length := by
  induction c generalizing i fp sizes with
  | zero => rfl
  | succ c ih => rw [read_layer_sizes, ih, List.length_set]

theorem to_int_of_fits (x : Int) (h1 : -2147483648 ≤ x) (h2 : x < 2147483648) :
    to_int x = x := by
  unfold to_int
  omega

theorem free_model_return_null_ne_loaded {β : Type} (u : Uninit) (assigned : Nat)
    (hidden_layers : Int) (v : β) :
    free_model_return_null u assigned hidden_layers ≠ LoadResult.loaded v := by
  unfold free_model_return_null
  split <;> intro h <;> cases h

theorem load_layers_succ (scanf_f : List Char → Option (α × List Char))
    (dir : String → Option (List Char)) (u : Uninit) (hl : Int) (sizes : List Int)
    (c i : Nat) (prev : Int) (ws bs : List (List α)) :
    load_layers scanf_f dir u hl sizes (c + 1) i prev ws bs
      = match load_float_array_from_csv scanf_f (dir (weights_file i))
          (List.replicate (to_int (prev * sizes.getD i 0)).toNat 0)
          (to_int (prev * sizes.getD i 0)) with
        | none => free_model_return_null u (i + 1) hl
        | some w =>
          match load_float_array_from_csv scanf_f (dir (biases_file i))
            (List.replicate (sizes.getD i 0).toNat 0) (sizes.getD i 0) with
          | none => free_model_return_null u (i + 1) hl
          | some b =>
            load_layers scanf_f dir u hl sizes c (i + 1) (sizes.getD i 0)
              (ws ++ [w]) (bs ++ [b]) := by
  rw [load_layers]

/-- What a successful run of the layer loop of `create_model_from_path` leaves: one weight
array and one bias array per layer, each with the number of elements computed from the
layer sizes in `int` arithmetic. -/
theorem load_layers_shape (scanf_f : List Char → Option (α × List Char))
    (dir : String → Option (List Char)) (u : Uninit) (hl : Int) (sizes : List Int)
    (input_size : Int) (c i : Nat)
    (prev : Int) (ws bs W B : List (List α))
    (hprev : prev = if i = 0 then input_size else sizes.getD (i - 1) 0)
    (hws : ws.length = i) (hbs : bs.length = i)
    (h : load_layers scanf_f dir u hl sizes c i prev ws bs = LoadResult.loaded (W, B)) :
    W.length = i + c ∧ B.length = i + c ∧
    (∀ k, k < i → W[k]? = ws[k]? ∧ B[k]? = bs[k]?) ∧
    ∀ k, i ≤ k → k < i + c → ∃ w b, W[k]? = some w ∧ B[k]? = some b ∧
      w.length = (to_int ((if k = 0 then input_size else sizes.getD (k - 1) 0)
        * sizes.getD k 0)).toNat ∧
      b.length = (sizes.getD k 0).toNat := by
  induction c generalizing i prev ws bs with
  | zero =>
    simp only [load_layers, LoadResult.loaded.injEq, Prod.mk.injEq] at h
    obtain ⟨rfl, rfl⟩ := h
    exact ⟨hws, hbs, fun k _ => ⟨rfl, rfl⟩, fun k h1 h2 => absurd h2 (by omega)⟩
  | succ c ih =>
    rw [load_layers_succ] at h
    cases hw : load_float_array_from_csv scanf_f (dir (weights_file i))
        (List.replicate (to_int (prev * sizes.getD i 0)).toNat 0)
        (to_int (prev * sizes.getD i 0)) with
    | none =>
      rw [hw] at h
      exact absurd h (free_model_return_null_ne_loaded u _ hl _)
    | some w =>
      cases hb : load_float_array_from_csv scanf_f (dir (biases_file i))
          (List.replicate (sizes.getD i 0).toNat 0) (sizes.getD i 0) with
      | none =>
        rw [hw] at h
        simp only [hb] at h
        exact absurd h (free_model_return_null_ne_loaded u _ hl _)
      | some b =>
        rw [hw] at h
        simp only [hb] at h
        have hwl := load_float_array_from_csv_length scanf_f _ _ _ _ hw
        have hbl := load_float_array_from_csv_length scanf_f _ _ _ _ hb
        rw [List.length_replicate] at hwl hbl
        obtain ⟨h1, h2, h3, h4⟩ := ih (i + 1) (sizes.getD i 0) (ws ++ [w]) (bs ++ [b])
          (by simp) (by simp [hws]) (by simp [hbs]) h
        refine ⟨by omega, by omega, ?_, ?_⟩
        · intro k hk
          obtain ⟨e1, e2⟩ := h3 k (by omega)
          rw [e1, e2, List.getElem?_append_left (by omega),
            List.getElem?_append_left (by omega)]
          exact ⟨rfl, rfl⟩
        · intro k hk1 hk2
          rcases Nat.eq_or_lt_of_le hk1 with hk | hk
          · subst hk
            obtain ⟨e1, e2⟩ := h3 i (by omega)
            refine ⟨w, b, ?_, ?_, ?_, hbl⟩
            · rw [e1, ← hws, getElem?_append_length]
            · rw [e2, ← hbs, getElem?_append_length]
            · rw [hwl, ← hprev]
          · exact h4 k (by omega) (by omega)

theorem create_model_from_path_loaded (scanf_d : List Char → Option Int × List Char)
    (scanf_f : List Char → Option (α × List Char)) (dir : String → Option (List Char))
    (u : Uninit) (m : TinyNN_Model α)
    (hload : create_model_from_path scanf_d scanf_f dir u = LoadResult.loaded m) :
    ∃ fp wb, dir "architecture.txt" = some fp ∧
      load_layers scanf_f dir u (read_architecture (α := α) scanf_d fp u).hidden_layers
        (read_architecture (α := α) scanf_d fp u).layer_sizes
        (to_int ((read_architecture (α := α) scanf_d fp u).hidden_layers + 1)).toNat 0
        (read_architecture (α := α) scanf_d fp u).input_size [] [] = LoadResult.loaded wb ∧
      m = { read_architecture (α := α) scanf_d fp u with weights := wb.1, biases := wb.2 } := by
  unfold create_model_from_path at hload
  cases hfp : dir "architecture.txt" with
  | none => rw [hfp] at hload; cases hload
  | some fp =>
    simp only [hfp] at hload
    cases hl : load_layers scanf_f dir u (read_architecture (α := α) scanf_d fp u).hidden_layers
        (read_architecture (α := α) scanf_d fp u).layer_sizes
        (to_int ((read_architecture (α := α) scanf_d fp u).hidden_layers + 1)).toNat 0
        (read_architecture (α := α) scanf_d fp u).input_size [] [] with
    | loaded wb =>
      rw [hl] at hload
      simp only [LoadResult.loaded.injEq] at hload
      exact ⟨fp, wb, rfl, hl, hload.symm⟩
    | null => rw [hl] at hload; cases hload
    | undefined => rw [hl] at hload; cases hload

/-- A model returned by `create_model_from_path` has one layer size, one weight array and one
bias array per layer, and the arrays have the lengths computed from the layer sizes in `int`
arithmetic. -/
theorem loaded_model_shape (scanf_d : List Char → Option Int × List Char)
    (scanf_f : List Char → Option (α × List Char)) (dir : String → Option (List Char))
    (u : Uninit) (m : TinyNN_Model α)
    (hload : create_model_from_path scanf_d scanf_f dir u = LoadResult.loaded m) :
    ∀ k, k < (to_int (m.hidden_layers + 1)).toNat → ∃ s w b, m.layer_sizes[k]? = some s ∧
      m.weights[k]? = some w ∧ m.biases[k]? = some b ∧
      w.length = (to_int (s * prev_layer_size m k)).toNat ∧ b.length = s.toNat := by
  obtain ⟨fp, wb, _, hl, rfl⟩ := create_model_from_path_loaded scanf_d scanf_f dir u m hload
  obtain ⟨_, _, _, h4⟩ := load_layers_shape scanf_f dir u _ _
    (read_architecture (α := α) scanf_d fp u).input_size _ 0 _ [] [] wb.1 wb.2
    (by simp) rfl rfl hl
  intro k hk
  have hlen : (read_architecture (α := α) scanf_d fp u).layer_sizes.length
      = (to_int ((read_architecture (α := α) scanf_d fp u).hidden_layers + 1)).toNat := by
    simp [read_architecture, read_layer_sizes_length]
  obtain ⟨w, b, hw, hb, hwl, hbl⟩ := h4 k (Nat.zero_le _) (by simpa using hk)
  have hk' : k < (read_architecture (α := α) scanf_d fp u).layer_sizes.length := by
    rw [hlen]; exact hk
  refine ⟨_, w, b, List.getElem?_eq_getElem hk', hw, hb, ?_, ?_⟩
  · rw [hwl, mul_comm, List.getD_eq_getElem _ _ hk']
    rfl
  · rw [hbl, List.getD_eq_getElem _ _ hk']

theorem forward_ref_length (expf : α → α) (m : TinyNN_Model α) (input : List α)
    (h0 : 0 ≤ m.hidden_layers) (hout : 0 ≤ m.layer_sizes.getD m.hidden_layers.toNat 0) :
    ((forward_ref expf m input).length : Int) = m.layer_sizes.getD m.hidden_layers.toNat 0 := by
  obtain ⟨z, hz, hzref⟩ := forward_ref_last expf m input h0
  rw [hzref, softmax_ref, List.length_map, hz, Int.toNat_of_nonneg hout]

/-- For every model returned by `create_model_from_path` whose layer count and weight counts
fit in an `int`, with `hidden_layers ≥ 0` and an output layer of at least one neuron, and
every input of length `input_size`, `forward_pass` returns a vector whose length is the last
element of the loaded `layer_sizes`. -/
theorem loaded_forward_pass_length (scanf_d : List Char → Option Int × List Char)
    (scanf_f : List Char → Option (α × List Char)) (dir : String → Option (List Char))
    (u : Uninit) (expf : α → α) (m : TinyNN_Model α) (input : List α)
    (hload : create_model_from_path scanf_d scanf_f dir u = LoadResult.loaded m)
    (hh : 0 ≤ m.hidden_layers) (hfit : m.hidden_layers + 1 < 2147483648)
    (hfits : ∀ k, k < (m.hidden_layers + 1).toNat →
      -2147483648 ≤ m.layer_sizes.getD k 0 * prev_layer_size m k ∧
      m.layer_sizes.getD k 0 * prev_layer_size m k < 2147483648)
    (hout : 1 ≤ m.layer_sizes.getD m.hidden_layers.toNat 0)
    (hin : (input.length : Int) = m.input_size) :
    ∃ out, forward_pass expf m input = some out ∧
      (out.length : Int) = m.layer_sizes.getD m.hidden_layers.toNat 0 := by
  have hshape := loaded_model_shape scanf_d scanf_f dir u m hload
  rw [to_int_of_fits _ (by omega) hfit] at hshape
  refine ⟨forward_ref expf m input, forward_pass_of_shape expf m input (by omega) ?_,
    forward_ref_length expf m input hh (by omega)⟩
  intro k hk
  obtain ⟨s, w, b, hs, hw, hb, hwl, hbl⟩ := hshape k hk
  have hsk : m.layer_sizes.getD k 0 = s := by simp [List.getD_eq_getElem?_getD, hs]
  have hf := hfits k hk
  rw [hsk] at hf
  rw [to_int_of_fits _ hf.1 hf.2] at hwl
  refine ⟨s, w, b, hs, hw, hb, hwl, hbl, ?_⟩
  intro hlt
  have hkeq : k = m.hidden_layers.toNat := by omega
  subst hkeq
  rw [← hsk]
  exact hout

/-- Witness of `loaded_forward_pass_length`: a directory with one hidden layer is loaded and
run on the input `[1, 2]`. -/
theorem loaded_forward_pass_length_witness :
    ∃ m : TinyNN_Model ℝ,
      (create_model_from_path scan_d scan_f two_layer_dir zero_memory = LoadResult.loaded m ∧
        0 ≤ m.hidden_layers ∧ m.hidden_layers + 1 < 2147483648 ∧
        (∀ k, k < (m.hidden_layers + 1).toNat →
          -2147483648 ≤ m.layer_sizes.getD k 0 * prev_layer_size m k ∧
          m.layer_sizes.getD k 0 * prev_layer_size m k < 2147483648) ∧
        1 ≤ m.layer_sizes.getD m.hidden_layers.toNat 0 ∧
        ((([1, 2] : List ℝ).length : Nat) : Int) = m.input_size) ∧
      ∃ out, forward_pass Real.exp m [1, 2] = some out ∧
        (out.length : Int) = m.layer_sizes.getD m.hidden_layers.toNat 0 := by
  have hs : (loaded_model (create_model_from_path scan_d
      (scan_f : List Char → Option (ℝ × List Char)) two_layer_dir zero_memory)).map
        (fun m => (m.input_size, m.hidden_layers, m.layer_sizes)) = some (2, 1, [2, 1]) := by
    decide
  cases hm : create_model_from_path scan_d (scan_f : List Char → Option (ℝ × List Char))
      two_layer_dir zero_memory with
  | null => rw [hm] at hs; cases hs
  | undefined => rw [hm] at hs; cases hs
  | loaded m =>
    rw [hm] at hs
    simp only [loaded_model, Option.map_some', Option.some.injEq, Prod.mk.injEq] at hs
    obtain ⟨h1, h2, h3⟩ := hs
    have hh : 0 ≤ m.hidden_layers := by rw [h2]; decide
    have hfit : m.hidden_layers + 1 < 2147483648 := by rw [h2]; decide
    have hfits : ∀ k, k < (m.hidden_layers + 1).toNat →
        -2147483648 ≤ m.layer_sizes.getD k 0 * prev_layer_size m k ∧
        m.layer_sizes.getD k 0 * prev_layer_size m k < 2147483648 := by
      unfold prev_layer_size
      rw [h1, h2, h3]
      decide
    have hout : 1 ≤ m.layer_sizes.getD m.hidden_layers.toNat 0 := by rw [h2, h3]; decide
    have hin : ((([1, 2] : List ℝ).length : Nat) : Int) = m.input_size := by rw [h1]; rfl
    exact ⟨m, ⟨rfl, hh, hfit, hfits, hout, hin⟩,
      loaded_forward_pass_length scan_d scan_f two_layer_dir zero_memory Real.exp m [1, 2]
        hm hh hfit hfits hout hin⟩

/-- Claim C2 at a failing input: the directory `mismatch_dir`, whose `architecture.txt`
declares `output_size = 2` and a single layer of size 1, is loaded without complaint; on the
input `[1]` the forward pass returns a vector of length 1, so that the element of index 1,
which `run_inference` of `src/main.c` prints for `i < output_size`, is outside the vector. -/
theorem output_size_not_checked :
    (loaded_model (create_model_from_path scan_d (scan_f : List Char → Option (ℝ × List Char))
        mismatch_dir zero_memory)).map
      (fun m => (m.input_size, m.output_size, m.layer_sizes.getLast?,
        (forward_pass Real.exp m [1]).map List.length))
      = some (1, 2, some 1, some 1) ∧
    (loaded_model (create_model_from_path scan_d (scan_f : List Char → Option (ℝ × List Char))
        mismatch_dir zero_memory)).map
      (fun m => (forward_pass Real.exp m [1]).map fun out => (read_at out 1).isSome)
      = some (some false) := by
  constructor <;> decide

/-- The part of claim C7 that holds: without `architecture.txt` the call returns `NULL`. -/
theorem create_model_from_path_no_architecture (scanf_d : List Char → Option Int × List Char)
    (scanf_f : List Char → Option (α × List Char)) (dir : String → Option (List Char))
    (u : Uninit) (h : dir "architecture.txt" = none) :
    create_model_from_path scanf_d scanf_f dir u = LoadResult.null := by
  simp [create_model_from_path, h]

/-- Claim C7 at a failing input: `architecture.txt` holds three integers and no layer size,
yet `create_model_from_path` returns a model; its layer size is what the allocated buffer
held (0 in one run, 1 in the other). -/
theorem truncated_architecture_loads :
    (loaded_model (create_model_from_path scan_d (scan_f : List Char → Option (ℚ × List Char))
        truncated_dir zero_memory)).map
      (fun m => (m.input_size, m.output_size, m.hidden_layers, m.layer_sizes))
      = some (2, 1, 0, [0]) ∧
    (loaded_model (create_model_from_path scan_d (scan_f : List Char → Option (ℚ × List Char))
        truncated_dir one_memory)).map
      (fun m => (m.input_size, m.output_size, m.hidden_layers, m.layer_sizes))
      = some (2, 1, 0, [1]) := by
  constructor <;> decide

set_option maxRecDepth 100000 in
/-- The directory generated for the preset Micro, evaluated: `architecture.txt` is as
declared, but `layer_0_weights.csv` has a NUL character after the
16th value of its first row, where the 17th call of `fscanf` fails, and no model is
returned: the call returns `NULL` when the pointers of layer 1 were null in the allocated
memory, and frees them otherwise. -/
theorem generated_micro_does_not_load :
    (run_model_generator fmt_f sample_rand 10 1).map
      (fun files =>
        (dir_of files "architecture.txt",
         ((dir_of files "layer_0_weights.csv").bind
            (scan_values (scan_f : List Char → Option (ℚ × List Char)) 16)).map
              (fun vr => vr.2.take 2),
         returned_null (create_model_from_path scan_d
            (scan_f : List Char → Option (ℚ × List Char)) (dir_of files) zero_memory),
         is_undefined (create_model_from_path scan_d
            (scan_f : List Char → Option (ℚ × List Char)) (dir_of files) used_memory)))
      = some (some "16\n4\n1\n8\n4\n".toList, some [Char.ofNat 0, '\n'], true, true) := by
  with_unfolding_all decide

/-- The layer loop leaves by `free_model(model); return NULL;` as soon as the weights file or
the biases file of one of its layers fails to load. -/
theorem load_layers_fails (scanf_f : List Char → Option (α × List Char))
    (dir : String → Option (List Char)) (u : Uninit) (hl : Int) (sizes : List Int)
    (input_size : Int) (c i : Nat)
    (prev : Int) (ws bs : List (List α)) (k : Nat)
    (hprev : prev = if i = 0 then input_size else sizes.getD (i - 1) 0)
    (hk1 : i ≤ k) (hk2 : k < i + c)
    (hfail :
      load_float_array_from_csv scanf_f (dir (weights_file k))
        (List.replicate (to_int ((if k = 0 then input_size else sizes.getD (k - 1) 0)
          * sizes.getD k 0)).toNat 0)
        (to_int ((if k = 0 then input_size else sizes.getD (k - 1) 0) * sizes.getD k 0))
          = none ∨
      load_float_array_from_csv scanf_f (dir (biases_file k))
        (List.replicate (sizes.getD k 0).toNat 0) (sizes.getD k 0) = none) :
    ∃ j, i ≤ j ∧ j ≤ k ∧
      load_layers scanf_f dir u hl sizes c i prev ws bs = free_model_return_null u (j + 1) hl := by
  induction c generalizing i prev ws bs with
  | zero => omega
  | succ c ih =>
    rw [load_layers_succ]
    cases hw : load_float_array_from_csv scanf_f (dir (weights_file i))
        (List.replicate (to_int (prev * sizes.getD i 0)).toNat 0)
        (to_int (prev * sizes.getD i 0)) with
    | none => exact ⟨i, Nat.le_refl _, hk1, rfl⟩
    | some w =>
      cases hb : load_float_array_from_csv scanf_f (dir (biases_file i))
          (List.replicate (sizes.getD i 0).toNat 0) (sizes.getD i 0) with
      | none => exact ⟨i, Nat.le_refl _, hk1, rfl⟩
      | some b =>
        rcases Nat.eq_or_lt_of_le hk1 with hik | hik
        · subst hik
          rw [← hprev] at hfail
          rcases hfail with h | h
          · rw [hw] at h; cases h
          · rw [hb] at h; cases h
        · obtain ⟨j, hj1, hj2, hj⟩ := ih (i + 1) (sizes.getD i 0) (ws ++ [w]) (bs ++ [b])
            (by simp) (by omega) (by omega)
          exact ⟨j, by omega, hj2, hj⟩

/-- A file that cannot be opened, or that holds fewer than `n` values, fails to load. -/
theorem load_float_array_from_csv_none (scanf_f : List Char → Option (α × List Char))
    (file : Option (List Char)) (n : Int)
    (h : file = none ∨ ∃ fp vs, file = some fp ∧ holds_values scanf_f fp vs ∧
      (vs.length : Int) < n) :
    load_float_array_from_csv scanf_f file (List.replicate n.toNat 0) n = none := by
  rcases h with h | ⟨fp, vs, h, hv, hlt⟩
  · rw [h]; rfl
  · rw [h, load_float_array_from_csv_eq scanf_f fp _ n (by simp),
      scan_values_of_holds_lt scanf_f fp vs n.toNat hv (by omega)]
    rfl

/-- With `architecture.txt` in place, `create_model_from_path` leaves by
`free_model(model); return NULL;` in some layer `j ≤ i` when a file of layer `i` fails to
load. -/
theorem create_model_from_path_fails (scanf_d : List Char → Option Int × List Char)
    (scanf_f : List Char → Option (α × List Char)) (dir : String → Option (List Char))
    (u : Uninit) (fp : List Char) (i : Nat)
    (harch : dir "architecture.txt" = some fp)
    (hi : (i : Int) < to_int ((read_architecture (α := α) scanf_d fp u).hidden_layers + 1))
    (hfail :
      load_float_array_from_csv scanf_f (dir (weights_file i))
        (List.replicate (to_int (prev_layer_size (read_architecture (α := α) scanf_d fp u) i
          * (read_architecture (α := α) scanf_d fp u).layer_sizes.getD i 0)).toNat 0)
        (to_int (prev_layer_size (read_architecture (α := α) scanf_d fp u) i
          * (read_architecture (α := α) scanf_d fp u).layer_sizes.getD i 0)) = none ∨
      load_float_array_from_csv scanf_f (dir (biases_file i))
        (List.replicate ((read_architecture (α := α) scanf_d fp u).layer_sizes.getD i 0).toNat 0)
        ((read_architecture (α := α) scanf_d fp u).layer_sizes.getD i 0) = none) :
    ∃ j, j ≤ i ∧ create_model_from_path scanf_d scanf_f dir u
      = free_model_return_null u (j + 1)
          (read_architecture (α := α) scanf_d fp u).hidden_layers := by
  obtain ⟨j, _, hj2, hj⟩ := load_layers_fails scanf_f dir u
    (read_architecture (α := α) scanf_d fp u).hidden_layers
    (read_architecture (α := α) scanf_d fp u).layer_sizes
    (read_architecture (α := α) scanf_d fp u).input_size
    (to_int ((read_architecture (α := α) scanf_d fp u).hidden_layers + 1)).toNat 0
    (read_architecture (α := α) scanf_d fp u).input_size [] [] i (by simp) (Nat.zero_le _)
    (by omega) hfail
  refine ⟨j, hj2, ?_⟩
  simp only [create_model_from_path, harch, hj]
  unfold free_model_return_null
  cases free_model u (j + 1) (read_architecture (α := α) scanf_d fp u).hidden_layers <;> rfl

/-- What `create_model_from_path` does with the layer files, for every layer `i` of the
architecture read from `architecture.txt`: when `layer_<i>_weights.csv` or
`layer_<i>_biases.csv` is missing or holds fewer values than the count computed in `int`
arithmetic (`layer_sizes[i] * prev_layer_size` weights, `layer_sizes[i]` biases), the call
leaves by `free_model(model); return NULL;` in some layer `j ≤ i`, which returns `NULL` when
the pointers of the layers after `j` were null in the allocated memory and is undefined
otherwise; and two files from which the same first `n` values are read load, into an array of
`n` floats, to the same array, whatever follows those values. -/
theorem layer_files_checked (scanf_d : List Char → Option Int × List Char)
    (scanf_f : List Char → Option (α × List Char)) (dir : String → Option (List Char))
    (u : Uninit) (fp : List Char) (i : Nat)
    (harch : dir "architecture.txt" = some fp)
    (hi : (i : Int) < to_int ((read_architecture (α := α) scanf_d fp u).hidden_layers + 1)) :
    ((dir (weights_file i) = none ∨ dir (biases_file i) = none) →
      ∃ j, j ≤ i ∧ create_model_from_path scanf_d scanf_f dir u
        = free_model_return_null u (j + 1)
            (read_architecture (α := α) scanf_d fp u).hidden_layers) ∧
    (∀ fw vs, dir (weights_file i) = some fw → holds_values scanf_f fw vs →
      (vs.length : Int) < to_int ((read_architecture (α := α) scanf_d fp u).layer_sizes.getD i 0
        * prev_layer_size (read_architecture (α := α) scanf_d fp u) i) →
      ∃ j, j ≤ i ∧ create_model_from_path scanf_d scanf_f dir u
        = free_model_return_null u (j + 1)
            (read_architecture (α := α) scanf_d fp u).hidden_layers) ∧
    (∀ fb vs, dir (biases_file i) = some fb → holds_values scanf_f fb vs →
      (vs.length : Int) < (read_architecture (α := α) scanf_d fp u).layer_sizes.getD i 0 →
      ∃ j, j ≤ i ∧ create_model_from_path scanf_d scanf_f dir u
        = free_model_return_null u (j + 1)
            (read_architecture (α := α) scanf_d fp u).hidden_layers) ∧
    (∀ (n : Int) (fp1 fp2 : List Char) (vs : List α) (r1 r2 : List Char) (array : List α),
      array.length = n.toNat →
      scan_values scanf_f n.toNat fp1 = some (vs, r1) →
      scan_values scanf_f n.toNat fp2 = some (vs, r2) →
      load_float_array_from_csv scanf_f (some fp1) array n = some vs ∧
      load_float_array_from_csv scanf_f (some fp2) array n = some vs) := by
  have key := create_model_from_path_fails scanf_d scanf_f dir u fp i harch hi
  refine ⟨?_, ?_, ?_, ?_⟩
  · rintro (h | h)
    · exact key (Or.inl (load_float_array_from_csv_none scanf_f _ _ (Or.inl h)))
    · exact key (Or.inr (load_float_array_from_csv_none scanf_f _ _ (Or.inl h)))
  · intro fw vs hfw hv hlt
    exact key (Or.inl (load_float_array_from_csv_none scanf_f _ _
      (Or.inr ⟨fw, vs, hfw, hv, by rw [mul_comm]; exact hlt⟩)))
  · intro fb vs hfb hv hlt
    exact key (Or.inr (load_float_array_from_csv_none scanf_f _ _
      (Or.inr ⟨fb, vs, hfb, hv, hlt⟩)))
  · intro n fp1 fp2 vs r1 r2 array hlen h1 h2
    rw [load_float_array_from_csv_eq scanf_f fp1 array n hlen,
      load_float_array_from_csv_eq scanf_f fp2 array n hlen, h1, h2]
    exact ⟨rfl, rfl⟩

/-- Witness of `layer_files_checked`: layer 0 of `short_first_layer_dir` expects `2 * 2`
weights and its file holds three values, so the call leaves by
`free_model(model); return NULL;` in layer 0. -/
theorem layer_files_checked_witness :
    (short_first_layer_dir "architecture.txt" = some "2\n1\n1\n2\n1\n".toList ∧
      ((0 : Nat) : Int) < to_int ((read_architecture (α := ℚ) scan_d "2\n1\n1\n2\n1\n".toList
        used_memory).hidden_layers + 1)) ∧
    (short_first_layer_dir (weights_file 0) = some "1.0,-1.0\n2.0\n".toList ∧
      holds_values (scan_f : List Char → Option (ℚ × List Char)) "1.0,-1.0\n2.0\n".toList
        [1, -1, 2] ∧
      ∃ j, j ≤ 0 ∧ create_model_from_path scan_d (scan_f : List Char → Option (ℚ × List Char))
        short_first_layer_dir used_memory
        = free_model_return_null used_memory (j + 1)
            (read_architecture (α := ℚ) scan_d "2\n1\n1\n2\n1\n".toList
              used_memory).hidden_layers) :=
  have hv : holds_values (scan_f : List Char → Option (ℚ × List Char))
      "1.0,-1.0\n2.0\n".toList [1, -1, 2] :=
    ⟨['\n'], by with_unfolding_all decide, by decide⟩
  ⟨⟨by decide, by decide⟩, by decide, hv,
    (layer_files_checked scan_d (scan_f : List Char → Option (ℚ × List Char))
      short_first_layer_dir used_memory "2\n1\n1\n2\n1\n".toList 0 (by decide) (by decide)).2.1
      "1.0,-1.0\n2.0\n".toList [1, -1, 2] (by decide) hv (by decide)⟩

set_option maxRecDepth 100000 in
/-- Claim C8 at two failing inputs. In `short_first_layer_dir` the weights file of layer 0
holds three values where four are expected: `create_model_from_path` calls `free_model` while
the pointers of layer 1 have not been assigned, which is undefined when the allocated memory
did not hold null pointers there (and returns `NULL` when it did, or when the short file is
that of the last layer, as in `short_last_layer_dir`). In `wide_input_dir` the weights file
is empty where `4 * 2^30` values are expected: the product is `0` in `int` arithmetic, and a
model is returned with an empty weight array. -/
theorem short_layer_file_outcomes :
    is_undefined (create_model_from_path scan_d (scan_f : List Char → Option (ℚ × List Char))
      short_first_layer_dir used_memory) = true ∧
    returned_null (create_model_from_path scan_d (scan_f : List Char → Option (ℚ × List Char))
      short_first_layer_dir zero_memory) = true ∧
    returned_null (create_model_from_path scan_d (scan_f : List Char → Option (ℚ × List Char))
      short_last_layer_dir used_memory) = true ∧
    (loaded_model (create_model_from_path scan_d (scan_f : List Char → Option (ℚ × List Char))
        wide_input_dir zero_memory)).map
      (fun m => (m.input_size, m.layer_sizes, m.weights.map List.length,
        m.biases.map List.length))
      = some (1073741824, [4], [0], [4]) := by
  refine ⟨?_, ?_, ?_, ?_⟩
  · with_unfolding_all decide
  · with_unfolding_all decide
  · with_unfolding_all decide
  · decide

/-! ## `load_input_from_file` -/

theorem scan_sign_digit (d : Char) (s : List Char) (hd : isdigit d = true) :
    scan_sign (d :: s) = (false, d :: s) := by
  have h1 : d ≠ '-' := by rintro rfl; exact absurd hd (by decide)
  have h2 : d ≠ '+' := by rintro rfl; exact absurd hd (by decide)
  unfold scan_sign
  split
  · next h => simp at h; exact absurd h.1 h1
  · next h => simp at h; exact absurd h.1 h2
  · rfl

theorem not_isspace_of_isdigit (d : Char) (hd : isdigit d = true) : isspace d = false := by
  have h1 : d ≠ ' ' := by rintro rfl; exact absurd hd (by decide)
  have h2 : d ≠ '\t' := by rintro rfl; exact absurd hd (by decide)
  have h3 : d ≠ '\n' := by rintro rfl; exact absurd hd (by decide)
  have h4 : d ≠ Char.ofNat 11 := by rintro rfl; exact absurd hd (by decide)
  have h5 : d ≠ Char.ofNat 12 := by rintro rfl; exact absurd hd (by decide)
  have h6 : d ≠ '\r' := by rintro rfl; exact absurd hd (by decide)
  simp [isspace, h1, h2, h3, h4, h5, h6]

theorem takeWhile_digits (ds : List Char) (x : Char) (rest : List Char)
    (hds : ∀ y ∈ ds, isdigit y = true) (hx : isdigit x = false) :
    (ds ++ x :: rest).takeWhile isdigit = ds ∧ (ds ++ x :: rest).dropWhile isdigit = x :: rest := by
  rw [List.takeWhile_append_of_pos hds, List.dropWhile_append_of_pos hds,
    List.takeWhile_cons_of_neg (by simp [hx]), List.dropWhile_cons_of_neg (by simp [hx])]
  simp

/-- A `"%f"` text followed by a character that is neither a digit nor an exponent mark is
converted whole by `scan_f`; the stream is left at that character. -/
theorem scan_f_pct_f (t : List Char) (h : pct_f_text t) (c : Char) (rest : List Char)
    (hc : isdigit c = false) (he : (c == 'e' || c == 'E') = false) :
    ∃ v : α, scan_f (t ++ c :: rest) = some (v, c :: rest) := by
  obtain ⟨neg, ip, fr, rfl, hip, hipd, hfrd, _⟩ := h
  obtain ⟨d, ip', rfl⟩ := List.exists_cons_of_ne_nil hip
  have hd : isdigit d = true := hipd d (List.mem_cons_self _ _)
  have hA : scan_sign (((if neg then ['-'] else []) ++ (d :: ip') ++ '.' :: fr ++ c :: rest).dropWhile
      isspace) = (neg, (d :: ip') ++ '.' :: (fr ++ c :: rest)) := by
    cases neg with
    | true =>
      simp only [if_true, List.singleton_append, List.cons_append, List.append_assoc]
      rw [List.dropWhile_cons_of_neg (by decide)]
      rfl
    | false =>
      simp only [Bool.false_eq_true, if_false, List.nil_append, List.cons_append,
        List.append_assoc]
      rw [List.dropWhile_cons_of_neg (by simp [not_isspace_of_isdigit d hd])]
      exact scan_sign_digit d _ hd
  obtain ⟨hB1, hB2⟩ := takeWhile_digits (d :: ip') '.' (fr ++ c :: rest) hipd (by decide)
  obtain ⟨hC1, hC2⟩ := takeWhile_digits fr c rest hfrd hc
  have hD : scan_exponent (c :: rest) = some (0, c :: rest) := by
    simp only [scan_exponent, he]
    rfl
  unfold scan_f
  simp only [hA, hB1, hB2, scan_fraction, hC1, hC2, hD, List.isEmpty_cons, Bool.false_and,
    Option.map_some']
  exact ⟨_, rfl⟩

theorem fscanf_f_comma_pct_f (t : List Char) (h : pct_f_text t) (rest : List Char) :
    (∃ v : α, fscanf_f_comma scan_f (t ++ ',' :: rest) = some (v, rest)) ∧
    (∃ v : α, fscanf_f_comma scan_f (t ++ Char.ofNat 0 :: rest)
      = some (v, Char.ofNat 0 :: rest)) := by
  constructor
  · obtain ⟨v, hv⟩ := scan_f_pct_f (α := α) t h ',' rest (by decide) (by decide)
    exact ⟨v, by simp [fscanf_f_comma, hv]⟩
  · obtain ⟨v, hv⟩ := scan_f_pct_f (α := α) t h (Char.ofNat 0) rest (by decide) (by decide)
    refine ⟨v, ?_⟩
    rw [fscanf_f_comma, hv]
    rfl

theorem fscanf_f_comma_nul (rest : List Char) :
    fscanf_f_comma (scan_f : List Char → Option (α × List Char)) (Char.ofNat 0 :: rest)
      = none := by
  have h : (Char.ofNat 0 :: rest).dropWhile isspace = Char.ofNat 0 :: rest :=
    List.dropWhile_cons_of_neg (by decide)
  have h2 : scan_sign (Char.ofNat 0 :: rest) = (false, Char.ofNat 0 :: rest) := by
    unfold scan_sign
    split
    · next h => simp at h
    · next h => simp at h
    · rfl
  have h3 : (Char.ofNat 0 :: rest).takeWhile isdigit = [] :=
    List.takeWhile_cons_of_neg (by decide)
  have h4 : (Char.ofNat 0 :: rest).dropWhile isdigit = Char.ofNat 0 :: rest :=
    List.dropWhile_cons_of_neg (by decide)
  have h5 : scan_fraction (Char.ofNat 0 :: rest) = ([], Char.ofNat 0 :: rest) := by
    unfold scan_fraction
    split
    · next h => simp at h
    · rfl
  simp [fscanf_f_comma, scan_f, h, h2, h3, h4, h5]

theorem loop_value_body (fmt_f : α → List Char) (rand : Nat → α) (RAND_MAX : α) (n : Int)
    (c i k : Nat) (acc : List Char) :
    loop (value_body fmt_f rand RAND_MAX n) c i (k, acc)
      = (k + c, acc ++ row_chunks fmt_f rand RAND_MAX n c i k) := by
  induction c generalizing i k acc with
  | zero => simp [loop, row_chunks]
  | succ c ih =>
    rw [loop, value_body, ih, row_chunks]
    simp only [List.append_assoc, List.singleton_append, Prod.mk.injEq, and_true]
    omega

/-- A row of `c` values that ends at the index `n - 1` is read back as `c` values, and the
stream is left at the NUL character written after the last of them. -/
theorem scan_values_row (fmt_f : α → List Char) (rand : Nat → α) (RAND_MAX : α) (n : Int)
    (hfmt : ∀ k, pct_f_text (fmt_f (random_float RAND_MAX (rand k))))
    (c i k : Nat) (rest : List Char) (hn : (i : Int) + (c : Int) + 1 = n) :
    ∃ vs : List α, scan_values scan_f (c + 1)
        (row_chunks fmt_f rand RAND_MAX n (c + 1) i k ++ rest)
      = some (vs, Char.ofNat 0 :: rest) := by
  induction c generalizing i k with
  | zero =>
    have hi : (i : Int) = n - 1 := by omega
    obtain ⟨v, hv⟩ := (fscanf_f_comma_pct_f (α := α) _ (hfmt k) rest).2
    refine ⟨[v], ?_⟩
    simp only [row_chunks, hi, if_true, List.append_assoc, List.cons_append, List.nil_append,
      scan_values, hv, Option.map_some']
  | succ c ih =>
    have hi : ¬ ((i : Int) = n - 1) := by omega
    obtain ⟨vs, hvs⟩ := ih (i + 1) (k + 1) (by push_cast at hn ⊢; omega)
    obtain ⟨v, hv⟩ := (fscanf_f_comma_pct_f (α := α) _ (hfmt k)
      (row_chunks fmt_f rand RAND_MAX n (c + 1) (i + 1) (k + 1) ++ rest)).1
    refine ⟨v :: vs, ?_⟩
    rw [row_chunks, scan_values]
    simp only [hi, if_false, List.append_assoc, List.cons_append, hv, hvs, Option.map_some']

theorem loop_row_body_prefix (fmt_f : α → List Char) (rand : Nat → α) (RAND_MAX : α)
    (n : Int) (c r k : Nat) (acc : List Char) :
    ∃ more, (loop (row_body fmt_f rand RAND_MAX n) c r (k, acc)).2 = acc ++ more := by
  induction c generalizing r k acc with
  | zero => exact ⟨[], by simp [loop]⟩
  | succ c ih =>
    rw [loop, row_body, loop_value_body]
    obtain ⟨more, hm⟩ := ih (r + 1) (k + n.toNat)
      (acc ++ row_chunks fmt_f rand RAND_MAX n n.toNat 0 k ++ ['\n'])
    exact ⟨_, by rw [hm, List.append_assoc, List.append_assoc]⟩

/-- The weights file generated for a layer with at least two neurons and at least one input
does not hold the expected number of values: the second row starts after a NUL character. -/
theorem generated_weights_do_not_load (fmt_f : α → List Char) (rand : Nat → α) (RAND_MAX : α)
    (hfmt : ∀ k, pct_f_text (fmt_f (random_float RAND_MAX (rand k))))
    (prev_layer_size current_layer_size : Int) (k : Nat)
    (hp : 1 ≤ prev_layer_size) (hc : 2 ≤ current_layer_size) (array : List α)
    (hlen : array.length = (prev_layer_size * current_layer_size).toNat) :
    load_float_array_from_csv scan_f
      (some (loop (row_body fmt_f rand RAND_MAX prev_layer_size) current_layer_size.toNat 0
        (k, [])).2) array (prev_layer_size * current_layer_size) = none := by
  obtain ⟨P, rfl⟩ : ∃ P : Nat, prev_layer_size = ((P + 1 : Nat) : Int) :=
    ⟨(prev_layer_size - 1).toNat, by omega⟩
  obtain ⟨S, rfl⟩ : ∃ S : Nat, current_layer_size = ((S + 2 : Nat) : Int) :=
    ⟨(current_layer_size - 2).toNat, by omega⟩
  have e1 : (((S + 2 : Nat) : Int)).toNat = (S + 1) + 1 := Int.toNat_natCast _
  have e2 : (((P + 1 : Nat) : Int) * ((S + 2 : Nat) : Int)).toNat
      = (P + 1) + ((P + 1) * (S + 1) - 1 + 1) := by
    have : ((P + 1 : Nat) : Int) * ((S + 2 : Nat) : Int) = (((P + 1) * (S + 2) : Nat) : Int) := by
      push_cast; ring
    rw [this, Int.toNat_natCast]
    have : 1 ≤ (P + 1) * (S + 1) := Nat.mul_pos (by omega) (by omega)
    have : (P + 1) * (S + 2) = (P + 1) + (P + 1) * (S + 1) := by ring
    omega
  have e3 : (((P + 1 : Nat) : Int)).toNat = P + 1 := Int.toNat_natCast _
  rw [load_float_array_from_csv_eq scan_f _ array _ hlen, e1, loop, row_body, loop_value_body]
  dsimp only
  rw [e3]
  obtain ⟨more, hm⟩ := loop_row_body_prefix fmt_f rand RAND_MAX ((P + 1 : Nat) : Int) (S + 1)
    (0 + 1) (k + (P + 1))
    ([] ++ row_chunks fmt_f rand RAND_MAX ((P + 1 : Nat) : Int) (P + 1) 0 k ++ ['\n'])
  obtain ⟨vs, hvs⟩ := scan_values_row fmt_f rand RAND_MAX ((P + 1 : Nat) : Int) hfmt P 0 k
    ('\n' :: more) (by push_cast; omega)
  rw [hm, e2, scan_values_add]
  simp only [List.nil_append, List.append_assoc, List.singleton_append]
  rw [hvs]
  simp only [Option.some_bind, scan_values, fscanf_f_comma_nul, Option.map_none']

theorem generated_preset_files (fmt_f : α → List Char) (rand : Nat → α) (RAND_MAX : α)
    (preset : ModelPreset) (hp : preset ∈ presets) :
    dir_of (generate fmt_f rand RAND_MAX preset) "architecture.txt"
      = some (architecture_text preset) ∧
    dir_of (generate fmt_f rand RAND_MAX preset) (weights_file 0)
      = some (loop (row_body fmt_f rand RAND_MAX preset.input_size)
          (preset.layer_sizes.getD 0 0).toNat 0 (0, [])).2 := by
  simp only [presets, List.mem_cons, List.mem_singleton, List.not_mem_nil, or_false] at hp
  rcases hp with rfl | rfl | rfl | rfl | rfl <;> exact ⟨rfl, rfl⟩

/-- When every conversion succeeds, the `layer_sizes` buffer ends up holding the integers
read, as `int`s, whatever it held before. -/
theorem read_layer_sizes_of_scan (scanf_d : List Char → Option Int × List Char)
    (fp : List Char) (pre suf vs : List Int)
    (h : scan_ints scanf_d suf.length fp = some vs) :
    read_layer_sizes scanf_d suf.length pre.length fp (pre ++ suf) = pre ++ vs.map to_int := by
  induction suf generalizing pre fp vs with
  | nil =>
    simp only [List.length_nil, scan_ints, Option.some.injEq] at h
    simp [read_layer_sizes, ← h]
  | cons x t ih =>
    simp only [List.length_cons, scan_ints] at h
    cases hv : (scanf_d fp).1 with
    | none => simp [hv] at h
    | some v =>
      simp only [hv] at h
      cases ht : scan_ints scanf_d t.length (scanf_d fp).2 with
      | none => simp [ht] at h
      | some ws =>
        simp only [ht, Option.map_some', Option.some.injEq] at h
        have := ih (scanf_d fp).2 (pre ++ [to_int v]) ws ht
        simp only [List.append_assoc, List.singleton_append, List.length_append,
          List.length_singleton] at this
        simp only [List.length_cons, read_layer_sizes, hv, Option.map_some', Option.getD_some,
          set_append_length, this, ← h, List.map_cons]

/-- An `architecture.txt` from which the three leading integers and then
`hidden_layers + 1` layer sizes are converted is read as those values, as `int`s, whatever
the allocated memory held. -/
theorem read_architecture_of_scan (scanf_d : List Char → Option Int × List Char)
    (fp : List Char) (u : Uninit) (a b h : Int) (sizes : List Int)
    (h1 : (scanf_d fp).1 = some a) (h2 : (scanf_d (scanf_d fp).2).1 = some b)
    (h3 : (scanf_d (scanf_d (scanf_d fp).2).2).1 = some h)
    (h4 : scan_ints scanf_d (to_int (to_int h + 1)).toNat
      (scanf_d (scanf_d (scanf_d fp).2).2).2 = some sizes) :
    (read_architecture (α := α) scanf_d fp u).input_size = to_int a ∧
    (read_architecture (α := α) scanf_d fp u).output_size = to_int b ∧
    (read_architecture (α := α) scanf_d fp u).hidden_layers = to_int h ∧
    (read_architecture (α := α) scanf_d fp u).layer_sizes = sizes.map to_int := by
  have e := read_layer_sizes_of_scan scanf_d (scanf_d (scanf_d (scanf_d fp).2).2).2 []
    ((List.range (to_int (to_int h + 1)).toNat).map u.layer_sizes) sizes (by simpa using h4)
  simp only [List.length_map, List.length_range, List.length_nil, List.nil_append] at e
  simp only [read_architecture, fscanf_d_into, h1, h2, h3, Option.map_some', Option.getD_some,
    e, and_self]

theorem scan_architecture_preset (preset : ModelPreset) (hp : preset ∈ presets) :
    (scan_d (architecture_text preset)).1 = some preset.input_size ∧
    (scan_d (scan_d (architecture_text preset)).2).1 = some preset.output_size ∧
    (scan_d (scan_d (scan_d (architecture_text preset)).2).2).1
      = some (preset.num_layers - 1) ∧
    scan_ints scan_d (to_int (to_int (preset.num_layers - 1) + 1)).toNat
      (scan_d (scan_d (scan_d (architecture_text preset)).2).2).2 = some preset.layer_sizes ∧
    1 ≤ preset.input_size ∧ 2 ≤ preset.layer_sizes.getD 0 0 ∧ 1 ≤ preset.num_layers := by
  simp only [presets, List.mem_cons, List.mem_singleton, List.not_mem_nil, or_false] at hp
  rcases hp with rfl | rfl | rfl | rfl | rfl <;> decide

/-- The numbers of the preset table are not changed by their store in an `int`, and neither
is the number of weights of the first layer. -/
theorem preset_fits_int (preset : ModelPreset) (hp : preset ∈ presets) :
    to_int preset.input_size = preset.input_size ∧
    to_int preset.output_size = preset.output_size ∧
    to_int (preset.num_layers - 1) = preset.num_layers - 1 ∧
    preset.layer_sizes.map to_int = preset.layer_sizes ∧
    to_int (preset.input_size * preset.layer_sizes.getD 0 0)
      = preset.input_size * preset.layer_sizes.getD 0 0 ∧
    0 < to_int (preset.num_layers - 1 + 1) := by
  simp only [presets, List.mem_cons, List.mem_singleton, List.not_mem_nil, or_false] at hp
  rcases hp with rfl | rfl | rfl | rfl | rfl <;> decide

/-- Claim C6 fails on the code: for every preset of the table and every stream of random
values, the directory that generation writes does not load: `layer_0_weights.csv` has a NUL character after the last
value of its first row, where the next `fscanf` fails, and `create_model_from_path` leaves by
`free_model(model); return NULL;` in layer 0, which returns `NULL` when the pointers of the
layers after layer 0 were null in the allocated memory and is undefined otherwise. (`fmt_f`
writes each value as `"%f"` text.) -/
theorem generated_preset_does_not_load (fmt_f : α → List Char) (rand : Nat → α)
    (RAND_MAX : α) (hfmt : ∀ k, pct_f_text (fmt_f (random_float RAND_MAX (rand k))))
    (preset : ModelPreset) (hp : preset ∈ presets) (u : Uninit) :
    create_model_from_path scan_d (scan_f : List Char → Option (α × List Char))
      (dir_of (generate fmt_f rand RAND_MAX preset)) u
      = free_model_return_null u 1 (preset.num_layers - 1) := by
  obtain ⟨hf1, hf2⟩ := generated_preset_files fmt_f rand RAND_MAX preset hp
  obtain ⟨h1, h2, h3, h4, hI, hS, hL⟩ := scan_architecture_preset preset hp
  obtain ⟨f1, _, f3, f4, f5, f6⟩ := preset_fits_int preset hp
  obtain ⟨ea, _, eh, es⟩ := read_architecture_of_scan (α := α) scan_d
    (architecture_text preset) u _ _ _ _ h1 h2 h3 h4
  rw [f1] at ea
  rw [f3] at eh
  rw [f4] at es
  obtain ⟨j, hj, h⟩ := create_model_from_path_fails scan_d
    (scan_f : List Char → Option (α × List Char))
    (dir_of (generate fmt_f rand RAND_MAX preset)) u (architecture_text preset) 0 hf1
    (by rw [eh]; exact_mod_cast f6)
    (by
      left
      simp only [prev_layer_size, if_true, ea, es, hf2, f5]
      exact generated_weights_do_not_load fmt_f rand RAND_MAX hfmt preset.input_size
        (preset.layer_sizes.getD 0 0) 0 hI hS _ (by simp))
  obtain rfl : j = 0 := by omega
  rw [h, eh]

theorem pct_f_text_of_check (t : List Char) (h : is_pct_f t = true) : pct_f_text t := by
  unfold is_pct_f at h
  have key : ∀ s : List Char, (match s.dropWhile isdigit with
      | '.' :: fr => !(s.takeWhile isdigit).isEmpty && fr.all isdigit && fr.length == 6
      | _ => false) = true →
      ∃ ip fr, s = ip ++ '.' :: fr ∧ ip ≠ [] ∧ (∀ c ∈ ip, isdigit c = true) ∧
        (∀ c ∈ fr, isdigit c = true) ∧ fr.length = 6 := by
    intro s hs
    split at hs
    · next fr hfr =>
      simp only [Bool.and_eq_true, Bool.not_eq_true', List.isEmpty_eq_false, List.all_eq_true,
        beq_iff_eq] at hs
      refine ⟨s.takeWhile isdigit, fr, ?_, ?_, ?_, hs.1.2, hs.2⟩
      · rw [← hfr, List.takeWhile_append_dropWhile]
      · intro h0
        rw [h0] at hs
        simp at hs
      · intro c hc
        exact (List.mem_takeWhile_imp hc)
    · cases hs
  by_cases hneg : t.head? = some '-'
  · simp only [hneg, if_true] at h
    obtain ⟨ip, fr, e, h1, h2, h3, h4⟩ := key _ h
    refine ⟨true, ip, fr, ?_, h1, h2, h3, h4⟩
    cases t with
    | nil => simp at hneg
    | cons c t' =>
      simp only [List.head?_cons, Option.some.injEq] at hneg
      simp only [List.tail_cons] at e
      simp [hneg, e]
  · simp only [hneg, if_false] at h
    obtain ⟨ip, fr, e, h1, h2, h3, h4⟩ := key _ h
    exact ⟨false, ip, fr, by simp [e], h1, h2, h3, h4⟩

/-- Every value of `random_float` for `sample_rand` and `RAND_MAX = 10` is written by
`fmt_f` as `"%f"` text. -/
theorem sample_rand_pct_f (k : Nat) : pct_f_text (fmt_f (random_float 10 (sample_rand k))) := by
  have h : ∀ m, m < 11 → is_pct_f (fmt_f (random_float 10 ((m : Nat) : ℚ))) = true := by
    with_unfolding_all decide
  exact pct_f_text_of_check _ (h (k * 7 % 11) (Nat.mod_lt _ (by decide)))

/-- Witness of `generated_preset_does_not_load`: the preset Micro with the random values of
`sample_rand`. -/
theorem generated_preset_does_not_load_witness :
    ((∀ k, pct_f_text (fmt_f (random_float 10 (sample_rand k)))) ∧
      ({ name := "Micro", input_size := 16, output_size := 4, num_layers := 2,
         layer_sizes := micro_layers } : ModelPreset) ∈ presets) ∧
    create_model_from_path scan_d (scan_f : List Char → Option (ℚ × List Char))
      (dir_of (generate fmt_f sample_rand 10
        { name := "Micro", input_size := 16, output_size := 4, num_layers := 2,
          layer_sizes := micro_layers })) used_memory
      = free_model_return_null used_memory 1
          (({ name := "Micro", input_size := 16, output_size := 4, num_layers := 2,
              layer_sizes := micro_layers } : ModelPreset).num_layers - 1) :=
  ⟨⟨sample_rand_pct_f, List.mem_cons_self _ _⟩,
    generated_preset_does_not_load fmt_f sample_rand 10 sample_rand_pct_f _
      (List.mem_cons_self _ _) used_memory⟩

/-! ## Further properties of the loader -/

/-- Witness of `create_model_from_path_no_architecture`: an empty directory. -/
theorem create_model_from_path_no_architecture_witness :
    dir_of [] "architecture.txt" = none ∧
    create_model_from_path scan_d (scan_f : List Char → Option (ℚ × List Char)) (dir_of [])
      zero_memory = LoadResult.null :=
  ⟨rfl, create_model_from_path_no_architecture scan_d scan_f (dir_of []) zero_memory rfl⟩

/-- Every model that `create_model_from_path` returns has one layer size, one weight array
and one bias array per layer, with `len(weights[k]) = layer_sizes[k] * prev_layer_size`, the
product being the one of `int` arithmetic, and `len(biases[k]) = layer_sizes[k]` (a negative
count standing for an empty array). -/
theorem loaded_model_invariant (scanf_d : List Char → Option Int × List Char)
    (scanf_f : List Char → Option (α × List Char)) (dir : String → Option (List Char))
    (u : Uninit) (m : TinyNN_Model α)
    (hload : create_model_from_path scanf_d scanf_f dir u = LoadResult.loaded m) :
    ∀ k, k < (to_int (m.hidden_layers + 1)).toNat → ∃ s w b, m.layer_sizes[k]? = some s ∧
      m.weights[k]? = some w ∧ m.biases[k]? = some b ∧
      w.length = (to_int (s * prev_layer_size m k)).toNat ∧ b.length = s.toNat :=
  loaded_model_shape scanf_d scanf_f dir u m hload

/-- Witness of `loaded_model_invariant`: the model loaded from `two_layer_dir`. -/
theorem loaded_model_invariant_witness :
    ∃ m : TinyNN_Model ℝ,
      create_model_from_path scan_d scan_f two_layer_dir zero_memory = LoadResult.loaded m ∧
      ∀ k, k < (to_int (m.hidden_layers + 1)).toNat → ∃ s w b, m.layer_sizes[k]? = some s ∧
        m.weights[k]? = some w ∧ m.biases[k]? = some b ∧
        w.length = (to_int (s * prev_layer_size m k)).toNat ∧ b.length = s.toNat := by
  have hs : (loaded_model (create_model_from_path scan_d
      (scan_f : List Char → Option (ℝ × List Char)) two_layer_dir zero_memory)).isSome
        = true := by decide
  cases hm : create_model_from_path scan_d (scan_f : List Char → Option (ℝ × List Char))
      two_layer_dir zero_memory with
  | null => rw [hm] at hs; cases hs
  | undefined => rw [hm] at hs; cases hs
  | loaded m =>
    exact ⟨m, rfl, loaded_model_invariant scan_d scan_f two_layer_dir zero_memory m hm⟩

/-! ## Claims about the preset table and `architecture.txt` -/

/-- Claim C11: for every preset of the five-entry table, the text generation writes to
`architecture.txt` is, one decimal integer per line and in order, `input_size`,
`output_size`, `num_layers - 1` and then every layer size of the preset; the five texts are
listed, the first being the lines 16, 4, 1, 8, 4 of Micro. -/
theorem architecture_txt_lines (fmt_f : α → List Char) (rand : Nat → α) (RAND_MAX : α) :
    (∀ preset ∈ presets,
      dir_of (generate fmt_f rand RAND_MAX preset) "architecture.txt"
        = some (int_lines (preset.input_size :: preset.output_size
            :: (preset.num_layers - 1) :: preset.layer_sizes))) ∧
    presets.map (fun preset => int_lines (preset.input_size :: preset.output_size
        :: (preset.num_layers - 1) :: preset.layer_sizes))
      = ["16\n4\n1\n8\n4\n".toList, "64\n8\n2\n32\n16\n8\n".toList,
         "128\n16\n3\n64\n32\n32\n16\n".toList, "256\n16\n4\n128\n64\n64\n32\n16\n".toList,
         "1024\n32\n4\n512\n256\n128\n64\n32\n".toList] := by
  have h : ∀ p ∈ presets, architecture_text p
      = int_lines (p.input_size :: p.output_size :: (p.num_layers - 1) :: p.layer_sizes) := by
    decide
  refine ⟨fun preset hp => ?_, by decide⟩
  rw [(generated_preset_files fmt_f rand RAND_MAX preset hp).1, h preset hp]

/-- Claim C15: every entry of the preset table describes a well-formed network: `num_layers`
is the length of its layer-size array and is `≥ 1`; `input_size`, `output_size` and every
layer size are positive; the last layer size is `output_size`. Hence every model with the
shape of the entry (its `input_size`, `hidden_layers = num_layers - 1` and `layer_sizes`)
and with `layer_sizes[i] * prev_layer_size` weights and `layer_sizes[i]` biases per layer,
the numbers of values generation writes, satisfies the Model invariant with every layer
size `≥ 1`. -/
theorem presets_well_formed (preset : ModelPreset) (hp : preset ∈ presets) :
    (preset.num_layers = (preset.layer_sizes.length : Int) ∧ 1 ≤ preset.num_layers ∧
      0 < preset.input_size ∧ 0 < preset.output_size ∧
      (∀ s ∈ preset.layer_sizes, 0 < s) ∧
      preset.layer_sizes.getLast? = some preset.output_size) ∧
    ∀ m : TinyNN_Model α, m.input_size = preset.input_size →
      m.hidden_layers = preset.num_layers - 1 → m.layer_sizes = preset.layer_sizes →
      m.weights.length = m.layer_sizes.length → m.biases.length = m.layer_sizes.length →
      (∀ i, i < m.layer_sizes.length →
        ((m.weights.getD i []).length : Int) = m.layer_sizes.getD i 0 * prev_layer_size m i) →
      (∀ i, i < m.layer_sizes.length →
        ((m.biases.getD i []).length : Int) = m.layer_sizes.getD i 0) →
      ModelInv m ∧ ∀ s ∈ m.layer_sizes, 1 ≤ s := by
  have h : ∀ p ∈ presets, p.num_layers = (p.layer_sizes.length : Int) ∧ 1 ≤ p.num_layers ∧
      0 < p.input_size ∧ 0 < p.output_size ∧ (∀ s ∈ p.layer_sizes, 0 < s) ∧
      p.layer_sizes.getLast? = some p.output_size := by decide
  obtain ⟨h1, h2, h3, h4, h5, h6⟩ := h preset hp
  refine ⟨⟨h1, h2, h3, h4, h5, h6⟩, ?_⟩
  intro m _ hh hs hw hb hwl hbl
  refine ⟨⟨by omega, by rw [hs, hh]; omega, hw, hb, hwl, hbl⟩, ?_⟩
  intro s hsm
  rw [hs] at hsm
  exact h5 s hsm

/-- Witness of `presets_well_formed`: the entry Micro, with the conclusion at the model of
shape Micro whose weights and biases are all zero. -/
theorem presets_well_formed_witness :
    ({ name := "Micro", input_size := 16, output_size := 4, num_layers := 2,
       layer_sizes := micro_layers } : ModelPreset) ∈ presets ∧
    (ModelInv (micro_shape_model : TinyNN_Model ℚ) ∧
      ∀ s ∈ (micro_shape_model : TinyNN_Model ℚ).layer_sizes, 1 ≤ s) :=
  ⟨List.mem_cons_self _ _,
    (presets_well_formed (α := ℚ) _ (List.mem_cons_self _ _)).2
      micro_shape_model
      rfl rfl rfl rfl rfl
      (by intro i hi; have : i < 2 := hi
          interval_cases i <;> simp [micro_shape_model, prev_layer_size])
      (by intro i hi; have : i < 2 := hi
          interval_cases i <;> simp [micro_shape_model])⟩

/-! ## Claim about the indices of the forward pass -/

theorem layer_ref_length (expf : α → α) (m : TinyNN_Model α) (i : Nat) (a : List α) :
    (layer_ref expf m i a).length = (m.layer_sizes.getD i 0).toNat := by
  rw [layer_ref]
  split_ifs
  · rw [List.length_map, affine_ref_length]
  · rw [softmax_ref, List.length_map, affine_ref_length]

theorem activation_ref_length (expf : α → α) (m : TinyNN_Model α) (input : List α) (i : Nat)
    (hin : (input.length : Int) = m.input_size) :
    (activation_ref expf m input i).length = (prev_layer_size m i).toNat := by
  cases i with
  | zero =>
    simp only [activation_ref, List.range_zero, List.foldl_nil, prev_layer_size, if_true]
    omega
  | succ i =>
    rw [activation_ref, List.range_succ, List.foldl_append]
    simp only [List.foldl_cons, List.foldl_nil, layer_ref_length, prev_layer_size,
      Nat.add_one_ne_zero, if_false, Nat.add_sub_cancel]

/-- Claim C14: under the Model invariant with every layer size `≥ 1`, and for an input of
length `input_size`, every index that `forward_pass` and `softmax` use is inside its array:
for every layer `i`, neuron `j < layer_sizes[i]` and `k < prev_layer_size`, the index
`j * prev_layer_size + k` is inside `weights[i]`, `k` is inside the current activation and
`j` is inside `biases[i]`; `softmax` stays in bounds on any array of the size of the output
layer (its read of element 0 included); and `forward_pass` returns a vector. -/
theorem forward_pass_in_bounds (expf : α → α) (m : TinyNN_Model α) (input : List α)
    (hinv : ModelInv m) (hpos : ∀ s ∈ m.layer_sizes, 1 ≤ s)
    (hin : (input.length : Int) = m.input_size) :
    (∀ i j k : Nat, i < m.layer_sizes.length → (j : Int) < m.layer_sizes.getD i 0 →
      (k : Int) < prev_layer_size m i →
      (0 ≤ (j : Int) * prev_layer_size m i + (k : Int) ∧
        (j : Int) * prev_layer_size m i + (k : Int) < ((m.weights.getD i []).length : Int)) ∧
      k < (activation_ref expf m input i).length ∧
      j < (m.biases.getD i []).length) ∧
    (∀ v : List α, (v.length : Int) = m.layer_sizes.getD m.hidden_layers.toNat 0 →
      v[0]?.isSome = true ∧
      (softmax expf v (m.layer_sizes.getD m.hidden_layers.toNat 0)).isSome = true) ∧
    (forward_pass expf m input).isSome = true := by
  have hlt : m.hidden_layers.toNat < m.layer_sizes.length := by
    obtain ⟨h1, h2, _⟩ := hinv
    omega
  have hout : 1 ≤ m.layer_sizes.getD m.hidden_layers.toNat 0 := by
    rw [List.getD_eq_getElem _ _ hlt]
    exact hpos _ (List.getElem_mem _)
  refine ⟨?_, ?_, ?_⟩
  · intro i j k hi hj hk
    obtain ⟨_, _, _, _, hw, hb⟩ := hinv
    have hw' := hw i hi
    have hb' := hb i hi
    have hp : 0 < prev_layer_size m i := by omega
    have hj0 : (0 : Int) ≤ (j : Int) := Int.natCast_nonneg j
    have hk0 : (0 : Int) ≤ (k : Int) := Int.natCast_nonneg k
    refine ⟨⟨by positivity, ?_⟩, ?_, by omega⟩
    · rw [hw']
      nlinarith
    · rw [activation_ref_length expf m input i hin]
      omega
  · intro v hv
    have hne : v ≠ [] := by
      intro h0
      rw [h0, List.length_nil] at hv
      omega
    obtain ⟨x, t, rfl⟩ := List.exists_cons_of_ne_nil hne
    refine ⟨by simp, ?_⟩
    rw [← hv, softmax_eq_ref expf (x :: t) hne]
    rfl
  · rw [forward_pass_of_shape expf m input (by omega) (shape_of_inv m hinv hout)]
    rfl

/-- Witness of `forward_pass_in_bounds`: a model with one hidden layer and the input
`[1, 2]`. -/
theorem forward_pass_in_bounds_witness :
    (ModelInv two_layer_model ∧ (∀ s ∈ two_layer_model.layer_sizes, 1 ≤ s) ∧
      ((([1, 2] : List ℝ).length : Nat) : Int) = two_layer_model.input_size) ∧
    (forward_pass Real.exp two_layer_model [1, 2]).isSome = true :=
  ⟨⟨by unfold ModelInv; decide, by decide, by decide⟩,
    (forward_pass_in_bounds Real.exp two_layer_model [1, 2] (by unfold ModelInv; decide)
      (by decide) (by decide)).2.2⟩

/-! ## The bytes of the generated layer files -/

theorem row_chunks_eq (fmt_f : α → List Char) (rand : Nat → α) (RAND_MAX : α) (n : Int)
    (c i k : Nat) (hn : (i : Int) + (c : Int) + 1 = n) :
    row_chunks fmt_f rand RAND_MAX n (c + 1) i k
      = comma_separated (value_texts fmt_f rand RAND_MAX (c + 1) k) ++ [Char.ofNat 0] := by
  induction c generalizing i k with
  | zero =>
    have hi : (i : Int) = n - 1 := by omega
    simp only [row_chunks, hi, if_true, value_texts, comma_separated]
  | succ c ih =>
    have hi : ¬ ((i : Int) = n - 1) := by omega
    have h := ih (i + 1) (k + 1) (by push_cast at hn ⊢; omega)
    rw [row_chunks, h]
    simp only [hi, if_false, value_texts, comma_separated, List.append_assoc, List.cons_append]

theorem loop_row_body_eq (fmt_f : α → List Char) (rand : Nat → α) (RAND_MAX : α)
    (P c r k : Nat) (acc : List Char) :
    loop (row_body fmt_f rand RAND_MAX ((P + 1 : Nat) : Int)) c r (k, acc)
      = (k + c * (P + 1), acc ++ nul_terminated_rows fmt_f rand RAND_MAX (P + 1) c k) := by
  induction c generalizing r k acc with
  | zero => simp [loop, nul_terminated_rows]
  | succ c ih =>
    rw [loop, row_body, loop_value_body, Int.toNat_natCast]
    dsimp only
    rw [ih, row_chunks_eq fmt_f rand RAND_MAX _ P 0 k (by push_cast; omega),
      nul_terminated_rows]
    simp only [List.append_assoc, List.singleton_append, List.cons_append, List.nil_append,
      Prod.mk.injEq, and_true]
    ring

theorem generated_layer_files_raw (fmt_f : α → List Char) (rand : Nat → α) (RAND_MAX : α)
    (preset : ModelPreset) (hp : preset ∈ presets) (i : Nat)
    (hi : i < preset.layer_sizes.length) :
    ∃ k,
      dir_of (generate fmt_f rand RAND_MAX preset) (weights_file i)
        = some (loop (row_body fmt_f rand RAND_MAX
            (if i = 0 then preset.input_size else preset.layer_sizes.getD (i - 1) 0))
            (preset.layer_sizes.getD i 0).toNat 0 (k, [])).2 ∧
      dir_of (generate fmt_f rand RAND_MAX preset) (biases_file i)
        = some (loop (value_body fmt_f rand RAND_MAX (preset.layer_sizes.getD i 0))
            (preset.layer_sizes.getD i 0).toNat 0
            ((loop (row_body fmt_f rand RAND_MAX
              (if i = 0 then preset.input_size else preset.layer_sizes.getD (i - 1) 0))
              (preset.layer_sizes.getD i 0).toNat 0 (k, [])).1, [])).2 := by
  simp only [presets, List.mem_cons, List.mem_singleton, List.not_mem_nil, or_false] at hp
  rcases hp with rfl | rfl | rfl | rfl | rfl
  · have h : i < 2 := hi
    interval_cases i <;> exact ⟨_, rfl, rfl⟩
  · have h : i < 3 := hi
    interval_cases i <;> exact ⟨_, rfl, rfl⟩
  · have h : i < 4 := hi
    interval_cases i <;> exact ⟨_, rfl, rfl⟩
  · have h : i < 5 := hi
    interval_cases i <;> exact ⟨_, rfl, rfl⟩
  · have h : i < 5 := hi
    interval_cases i <;> exact ⟨_, rfl, rfl⟩

theorem preset_sizes_pos (preset : ModelPreset) (hp : preset ∈ presets) :
    0 < preset.input_size ∧ ∀ s ∈ preset.layer_sizes, 0 < s := by
  have h : ∀ p ∈ presets, 0 < p.input_size ∧ ∀ s ∈ p.layer_sizes, 0 < s := by decide
  exact h preset hp

/-- Claim C12 fails on the code: for every preset and every layer `i`, the bytes written to
`layer_<i>_weights.csv` are `layer_sizes[i]` rows of `prev_layer_size` comma-separated
`"%f"` texts, but every row has a NUL character between its last value and its newline; and
`layer_<i>_biases.csv` is `layer_sizes[i]` comma-separated texts followed by a NUL
character. (`k` is the number of calls of `rand` before the layer.) -/
theorem generated_layer_files (fmt_f : α → List Char) (rand : Nat → α) (RAND_MAX : α)
    (preset : ModelPreset) (hp : preset ∈ presets) (i : Nat)
    (hi : i < preset.layer_sizes.length) :
    ∃ k,
      dir_of (generate fmt_f rand RAND_MAX preset) (weights_file i)
        = some (nul_terminated_rows fmt_f rand RAND_MAX
            (if i = 0 then preset.input_size else preset.layer_sizes.getD (i - 1) 0).toNat
            (preset.layer_sizes.getD i 0).toNat k) ∧
      dir_of (generate fmt_f rand RAND_MAX preset) (biases_file i)
        = some (comma_separated (value_texts fmt_f rand RAND_MAX
            (preset.layer_sizes.getD i 0).toNat
            (k + (preset.layer_sizes.getD i 0).toNat
              * (if i = 0 then preset.input_size
                  else preset.layer_sizes.getD (i - 1) 0).toNat)) ++ [Char.ofNat 0]) ∧
      1 ≤ (if i = 0 then preset.input_size else preset.layer_sizes.getD (i - 1) 0).toNat ∧
      1 ≤ (preset.layer_sizes.getD i 0).toNat := by
  obtain ⟨hI, hS⟩ := preset_sizes_pos preset hp
  obtain ⟨k, hw, hb⟩ := generated_layer_files_raw fmt_f rand RAND_MAX preset hp i hi
  have hsize : 0 < preset.layer_sizes.getD i 0 := by
    rw [List.getD_eq_getElem _ _ hi]
    exact hS _ (List.getElem_mem _)
  have hprev : 0 < (if i = 0 then preset.input_size else preset.layer_sizes.getD (i - 1) 0) := by
    split_ifs with h0
    · exact hI
    · have hi' : i - 1 < preset.layer_sizes.length := by omega
      rw [List.getD_eq_getElem _ _ hi']
      exact hS _ (List.getElem_mem _)
  obtain ⟨P, hP⟩ : ∃ P : Nat,
      (if i = 0 then preset.input_size else preset.layer_sizes.getD (i - 1) 0)
        = ((P + 1 : Nat) : Int) :=
    ⟨((if i = 0 then preset.input_size else preset.layer_sizes.getD (i - 1) 0) - 1).toNat,
      by omega⟩
  obtain ⟨S, hS'⟩ : ∃ S : Nat, preset.layer_sizes.getD i 0 = ((S + 1 : Nat) : Int) :=
    ⟨(preset.layer_sizes.getD i 0 - 1).toNat, by omega⟩
  rw [hP, hS'] at hw hb
  rw [hP, hS', Int.toNat_natCast, Int.toNat_natCast]
  rw [Int.toNat_natCast, loop_row_body_eq] at hw hb
  rw [loop_value_body, row_chunks_eq fmt_f rand RAND_MAX _ S 0 _ (by push_cast; omega)] at hb
  refine ⟨k, ?_, ?_, by omega, by omega⟩
  · rw [hw]; rfl
  · rw [hb]; rfl

/-- Witness of `generated_layer_files`: layer 1 of the preset Micro with the random values of
`sample_rand`. -/
theorem generated_layer_files_witness :
    (micro_preset ∈ presets ∧ 1 < micro_preset.layer_sizes.length) ∧
    ∃ k,
      dir_of (generate fmt_f sample_rand 10 micro_preset) (weights_file 1)
        = some (nul_terminated_rows fmt_f sample_rand 10
            (if 1 = 0 then micro_preset.input_size
              else micro_preset.layer_sizes.getD (1 - 1) 0).toNat
            (micro_preset.layer_sizes.getD 1 0).toNat k) ∧
      dir_of (generate fmt_f sample_rand 10 micro_preset) (biases_file 1)
        = some (comma_separated (value_texts fmt_f sample_rand 10
            (micro_preset.layer_sizes.getD 1 0).toNat
            (k + (micro_preset.layer_sizes.getD 1 0).toNat
              * (if 1 = 0 then micro_preset.input_size
                  else micro_preset.layer_sizes.getD (1 - 1) 0).toNat)) ++ [Char.ofNat 0]) ∧
      1 ≤ (if 1 = 0 then micro_preset.input_size
            else micro_preset.layer_sizes.getD (1 - 1) 0).toNat ∧
      1 ≤ (micro_preset.layer_sizes.getD 1 0).toNat :=
  ⟨⟨List.mem_cons_self _ _, by decide⟩,
    generated_layer_files fmt_f sample_rand 10 micro_preset (List.mem_cons_self _ _) 1
      (by decide)⟩

set_option maxRecDepth 100000 in
/-- The layer files of the preset Micro, evaluated for the random values of `sample_rand`:
`layer_1_biases.csv` is four values and a NUL character, and the first row of
`layer_1_weights.csv` is eight values, a NUL character and a newline. -/
theorem generated_micro_layer_1_bytes :
    dir_of (generate fmt_f sample_rand 10 micro_preset) "layer_1_biases.csv"
      = some ("1.000000,0.200000,-0.600000,0.800000".toList ++ [Char.ofNat 0]) ∧
    (dir_of (generate fmt_f sample_rand 10 micro_preset) "layer_1_weights.csv").map
        (fun w => w.take 77)
      = some ("0.200000,-0.600000,0.800000,0.000000,-0.800000,0.600000,-0.200000,-1.000000".toList
          ++ [Char.ofNat 0, '\n']) := by
  with_unfolding_all decide

/-! ## The layer-file parser on comma- or white-space-separated values -/

theorem takeWhile_digits_tail (ds tl : List Char) (hds : ∀ y ∈ ds, isdigit y = true)
    (htl : ∀ c, tl.head? = some c → isdigit c = false) :
    (ds ++ tl).takeWhile isdigit = ds ∧ (ds ++ tl).dropWhile isdigit = tl := by
  rw [List.takeWhile_append_of_pos hds, List.dropWhile_append_of_pos hds]
  cases tl with
  | nil => simp
  | cons c t =>
    have hc := htl c rfl
    rw [List.takeWhile_cons_of_neg (by simp [hc]), List.dropWhile_cons_of_neg (by simp [hc])]
    simp

theorem scan_fraction_stop (tl : List Char) (htl : ∀ c, tl.head? = some c → c ≠ '.') :
    scan_fraction tl = ([], tl) := by
  unfold scan_fraction
  split
  · next t => exact absurd rfl (htl '.' rfl)
  · rfl

theorem scan_exponent_stop (tl : List Char)
    (htl : ∀ c, tl.head? = some c → (c == 'e' || c == 'E') = false) :
    scan_exponent tl = some (0, tl) := by
  cases tl with
  | nil => rfl
  | cons c t =>
    simp only [scan_exponent, htl c rfl]
    rfl

/-- The characters at which a number ends: nothing, a comma or white space. -/
theorem stop_head (tl : List Char)
    (h : ∀ c, tl.head? = some c → c = ',' ∨ isspace c = true) :
    (∀ c, tl.head? = some c → isdigit c = false) ∧
    (∀ c, tl.head? = some c → c ≠ '.') ∧
    (∀ c, tl.head? = some c → (c == 'e' || c == 'E') = false) := by
  have key : ∀ c : Char, c = ',' ∨ isspace c = true →
      isdigit c = false ∧ c ≠ '.' ∧ (c == 'e' || c == 'E') = false := by
    intro c hc
    rcases hc with rfl | hc
    · decide
    · simp only [isspace, Bool.or_eq_true, beq_iff_eq] at hc
      rcases hc with ((((rfl | rfl) | rfl) | rfl) | rfl) | rfl <;> decide
  exact ⟨fun c hc => (key c (h c hc)).1, fun c hc => (key c (h c hc)).2.1,
    fun c hc => (key c (h c hc)).2.2⟩

/-- After white space, the text of a well-formed decimal numeral that ends at the end of the
stream, at a comma or at white space is converted to its value by `scan_f`, and the stream
is left right after the text. -/
theorem scan_f_decimal (ws : List Char) (d : Decimal) (tl : List Char)
    (hws : ∀ c ∈ ws, isspace c = true) (hd : decimal_ok d)
    (htl : ∀ c, tl.head? = some c → c = ',' ∨ isspace c = true) :
    scan_f (ws ++ (decimal_text d ++ tl)) = some ((decimal_value d : α), tl) := by
  obtain ⟨neg, ip, fr⟩ := d
  obtain ⟨hip, hipd, hfrd⟩ := hd
  simp only at hip hipd hfrd
  obtain ⟨d0, ip', rfl⟩ := List.exists_cons_of_ne_nil hip
  have hd0 : isdigit d0 = true := hipd d0 (List.mem_cons_self _ _)
  obtain ⟨hs1, hs2, hs3⟩ := stop_head tl htl
  -- the stream after the sign
  have hA : scan_sign ((ws ++ (decimal_text ⟨neg, d0 :: ip', fr⟩ ++ tl)).dropWhile isspace)
      = (neg, (d0 :: ip') ++ (frac_text fr ++ tl)) := by
    rw [List.dropWhile_append_of_pos hws]
    cases neg with
    | true =>
      simp only [decimal_text, if_true, List.singleton_append, List.cons_append,
        List.append_assoc]
      rw [List.dropWhile_cons_of_neg (by decide)]
      rfl
    | false =>
      simp only [decimal_text, Bool.false_eq_true, if_false, List.nil_append,
        List.cons_append, List.append_assoc]
      rw [List.dropWhile_cons_of_neg (by simp [not_isspace_of_isdigit d0 hd0])]
      exact scan_sign_digit d0 _ hd0
  cases fr with
  | none =>
    obtain ⟨hB1, hB2⟩ := takeWhile_digits_tail (d0 :: ip') tl hipd hs1
    unfold scan_f
    simp only [hA, frac_text, List.nil_append, hB1, hB2, scan_fraction_stop tl hs2,
      scan_exponent_stop tl hs3, List.isEmpty_cons, Bool.false_and, Option.map_some',
      decimal_value, Option.getD_none, List.length_nil, List.append_nil]
    rfl
  | some f =>
    have hf : ∀ c ∈ f, isdigit c = true := hfrd
    obtain ⟨hB1, hB2⟩ := takeWhile_digits_tail (d0 :: ip') (frac_text (some f) ++ tl) hipd
      (by intro c hc
          simp only [frac_text, List.cons_append, List.head?_cons, Option.some.injEq] at hc
          rw [← hc]; decide)
    obtain ⟨hC1, hC2⟩ := takeWhile_digits_tail f tl hf hs1
    have hF : scan_fraction (frac_text (some f) ++ tl) = (f, tl) := by
      show scan_fraction ('.' :: (f ++ tl)) = (f, tl)
      simp only [scan_fraction, hC1, hC2]
    unfold scan_f
    simp only [hA, hB1, hB2, hF, scan_exponent_stop tl hs3, List.isEmpty_cons, Bool.false_and,
      Option.map_some', decimal_value, Option.getD_some]
    rfl

/-- One call `fscanf(fp, "%f,", &x)` on a value followed by a separator: the value is
stored, and the stream is left at white space followed by what comes after the separator. -/
theorem fscanf_f_comma_separator (ws : List Char) (d : Decimal) (s rest : List Char)
    (hws : ∀ c ∈ ws, isspace c = true) (hd : decimal_ok d) (hs : is_separator s) :
    ∃ ws' : List Char, (∀ c ∈ ws', isspace c = true) ∧
      fscanf_f_comma scan_f (ws ++ (decimal_text d ++ (s ++ rest)))
        = some ((decimal_value d : α), ws' ++ rest) := by
  obtain ⟨ws', hws', hs' | ⟨hs', hne⟩⟩ := hs
  · subst hs'
    refine ⟨ws', hws', ?_⟩
    rw [fscanf_f_comma, scan_f_decimal ws d _ hws hd
      (by intro c hc; simp only [List.cons_append, List.head?_cons, Option.some.injEq] at hc
          exact Or.inl hc.symm)]
    rfl
  · subst hs'
    obtain ⟨c, t, rfl⟩ := List.exists_cons_of_ne_nil hne
    have hc : isspace c = true := hws' c (List.mem_cons_self _ _)
    have hcomma : c ≠ ',' := by rintro rfl; exact absurd hc (by decide)
    refine ⟨c :: t, hws', ?_⟩
    rw [fscanf_f_comma, scan_f_decimal ws d _ hws hd
      (by intro c' hc'; simp only [List.cons_append, List.head?_cons, Option.some.injEq] at hc'
          exact Or.inr (hc' ▸ hc))]
    simp only [Option.map_some', List.cons_append]
    split
    · next h => simp only [List.cons.injEq] at h; exact absurd h.1 hcomma
    · rfl

/-- The values of a well-separated text are read one after the other, after any leading
white space. -/
theorem scan_values_csv (ws : List Char) (items : List (Decimal × List Char))
    (hws : ∀ c ∈ ws, isspace c = true) (hok : csv_ok items) :
    ∃ rest, scan_values scan_f items.length (ws ++ csv_text items)
      = some (items.map fun item => (decimal_value item.1 : α), rest) := by
  induction items generalizing ws with
  | nil => exact ⟨_, rfl⟩
  | cons item r ih =>
    cases r with
    | nil =>
      obtain ⟨hd, hend⟩ := hok
      rcases hend with hnil | hsep
      · refine ⟨[], ?_⟩
        have h := scan_f_decimal (α := α) ws item.1 [] hws hd (by intro c hc; cases hc)
        rw [List.append_nil] at h
        simp only [csv_text, hnil, List.append_nil, List.length_singleton, scan_values,
          fscanf_f_comma, h, Option.map_some', List.map_cons, List.map_nil]
      · obtain ⟨ws', _, h⟩ := fscanf_f_comma_separator (α := α) ws item.1 item.2 [] hws hd hsep
        refine ⟨ws' ++ [], ?_⟩
        simp only [csv_text, List.append_assoc, List.length_singleton, scan_values, h,
          Option.map_some', List.map_cons, List.map_nil]
    | cons next r' =>
      obtain ⟨hd, hsep, hrest⟩ := hok
      obtain ⟨ws', hws', h⟩ := fscanf_f_comma_separator (α := α) ws item.1 item.2
        (csv_text (next :: r')) hws hd hsep
      obtain ⟨rest, hr⟩ := ih ws' hws' hrest
      refine ⟨rest, ?_⟩
      rw [List.length_cons, scan_values]
      simp only [csv_text, List.append_assoc] at h hr ⊢
      simp only [h, hr, Option.map_some', List.map_cons]

/-- Reading with the rounded conversion gives the values read with the exact one,
rounded. -/
theorem scan_values_float (fl : α → α) (n : Nat) (fp : List Char) :
    scan_values (scan_f_float fl) n fp
      = (scan_values scan_f n fp).map fun vr => (vr.1.map fl, vr.2) := by
  induction n generalizing fp with
  | zero => rfl
  | succ n ih =>
    rw [scan_values, scan_values]
    cases h : (scan_f fp : Option (α × List Char)) with
    | none => simp only [fscanf_f_comma, scan_f_float, h, Option.map_none']
    | some r =>
      simp only [fscanf_f_comma, scan_f_float, h, Option.map_some', ih]
      cases scan_values (scan_f : List Char → Option (α × List Char)) n
          (match r.2 with
            | ',' :: t => t
            | rest => rest) with
      | none => rfl
      | some vr => rfl

/-- The float nearest to `0.1`. -/
theorem round_to_float_tenth : round_to_float (1 / 10) = 13421773 / 134217728 :=
  Rat.ext (by with_unfolding_all decide) (by with_unfolding_all decide)

/-- Claim C13, as the code has it: for every sequence of `n` well-formed decimal numerals in
which consecutive values are separated by a comma, by white space (such as the newline
between rows) or by a comma followed by white space, and the last value is followed by
nothing or by such a separator, `load_float_array_from_csv` with the expected count `n`
returns 1 and the array holds, in order, the `n` values as the conversion stores them: each
rounded by `fl` to a `float`. -/
theorem load_float_array_from_csv_tolerant (fl : α → α) (items : List (Decimal × List Char))
    (array : List α) (hok : csv_ok items) (hlen : array.length = items.length) :
    load_float_array_from_csv (scan_f_float fl) (some (csv_text items)) array
        (items.length : Int)
      = some (items.map fun item => fl (decimal_value item.1)) := by
  obtain ⟨rest, h⟩ := scan_values_csv (α := α) [] items (by intro c hc; cases hc) hok
  rw [load_float_array_from_csv_eq (scan_f_float fl) _ array _ (by simpa using hlen),
    Int.toNat_natCast, scan_values_float]
  rw [List.nil_append] at h
  rw [h]
  simp only [Option.map_some', List.map_map, Function.comp_def]

/-- Witness of `load_float_array_from_csv_tolerant`: the text `"1.5,2.25\n-0.5, 3\n0.1"` with
the expected count 5 and the rounding to single precision gives the values
`3/2, 9/4, -1/2, 3` and the float nearest to `1/10`. -/
theorem load_float_array_from_csv_tolerant_witness :
    (csv_ok sample_rows ∧ (List.replicate 5 (0 : ℚ)).length = sample_rows.length) ∧
    csv_text sample_rows = "1.5,2.25\n-0.5, 3\n0.1".toList ∧
    load_float_array_from_csv (scan_f_float round_to_float)
        (some "1.5,2.25\n-0.5, 3\n0.1".toList) (List.replicate 5 (0 : ℚ)) 5
      = some [3 / 2, 9 / 4, -1 / 2, 3, 13421773 / 134217728] := by
  have hcomma : is_separator [','] := ⟨[], by simp, Or.inl rfl⟩
  have hcs : is_separator [',', ' '] := ⟨[' '], by decide, Or.inl rfl⟩
  have hnl : is_separator ['\n'] := ⟨['\n'], by decide, Or.inr ⟨rfl, by simp⟩⟩
  have hok : csv_ok sample_rows :=
    ⟨by unfold decimal_ok; decide, hcomma, by unfold decimal_ok; decide, hnl,
      by unfold decimal_ok; decide, hcs, by unfold decimal_ok; decide, hnl,
      by unfold decimal_ok; decide, Or.inl rfl⟩
  have e1 : csv_text sample_rows = "1.5,2.25\n-0.5, 3\n0.1".toList := by decide
  have d1 : sample_rows.map (fun item => (decimal_value item.1 : ℚ))
      = [3 / 2, 9 / 4, -1 / 2, 3, 1 / 10] := by with_unfolding_all decide
  have r1 : ([3 / 2, 9 / 4, -1 / 2, 3] : List ℚ).map round_to_float
      = [3 / 2, 9 / 4, -1 / 2, 3] := by with_unfolding_all decide
  have e2 : sample_rows.map (fun item => round_to_float (decimal_value item.1))
      = [3 / 2, 9 / 4, -1 / 2, 3, 13421773 / 134217728] := by
    have := congrArg (List.map round_to_float) d1
    rw [List.map_map] at this
    rw [show (fun item : Decimal × List Char => round_to_float (decimal_value item.1))
      = round_to_float ∘ (fun item => (decimal_value item.1 : ℚ)) from rfl, this]
    simp only [List.map_cons, List.map_nil, round_to_float_tenth, List.cons.injEq, and_true]
    simpa only [List.map_cons, List.map_nil, List.cons.injEq, and_true] using r1
  have h := load_float_array_from_csv_tolerant round_to_float sample_rows
    (List.replicate 5 0) hok rfl
  rw [e1, e2] at h
  exact ⟨⟨hok, rfl⟩, e1, h⟩

/-- Counterexample to claim C13 as stated: the text `"0.1"` holds one value, and the array
loaded from it with the expected count 1 holds the float nearest to `1/10`, which is not
`1/10`; and in the text `"1.5 ,2.5"` the two values are separated by white space and a comma,
and the load with the expected count 2 fails. -/
theorem load_float_array_from_csv_counterexample :
    load_float_array_from_csv (scan_f_float round_to_float) (some "0.1".toList) [0] 1
      = some [13421773 / 134217728] ∧
    (13421773 / 134217728 : ℚ) ≠ 1 / 10 ∧
    load_float_array_from_csv (scan_f_float round_to_float) (some "1.5 ,2.5".toList)
      [0, 0] 2 = none := by
  refine ⟨?_, by norm_num, ?_⟩
  · have h : scan_values (scan_f : List Char → Option (ℚ × List Char)) 1 "0.1".toList
        = some ([1 / 10], []) := by with_unfolding_all decide
    rw [load_float_array_from_csv_eq (scan_f_float round_to_float) _ _ _ (by decide),
      show (1 : Int).toNat = 1 from rfl, scan_values_float, h]
    simp only [Option.map_some', List.map_cons, List.map_nil, round_to_float_tenth]
  · have h : scan_values (scan_f : List Char → Option (ℚ × List Char)) 2 "1.5 ,2.5".toList
        = none := by with_unfolding_all decide
    rw [load_float_array_from_csv_eq (scan_f_float round_to_float) _ _ _ (by decide),
      show (2 : Int).toNat = 2 from rfl, scan_values_float, h]
    rfl

/-- White space followed by a comma is not a separator the parser accepts: on the text
`"1.5 ,2.5"` the second call of `fscanf` meets the comma, converts nothing, and the load
fails. -/
theorem space_before_comma_rejected :
    (scan_values (scan_f : List Char → Option (ℚ × List Char)) 1 "1.5 ,2.5".toList).map
        (fun vr => vr.2) = some " ,2.5".toList ∧
    load_float_array_from_csv (scan_f : List Char → Option (ℚ × List Char))
        (some "1.5 ,2.5".toList) (List.replicate 2 0) 2 = none := by
  constructor <;> with_unfolding_all decide

end TinyNN
